import Mathlib

/-!
Verification development for the xlsx_utilities repository
(Go struct <-> tabular data mapper).

The embedding models the Go reflection universe shallowly:

* `GoType` / `FieldList` mirror the reflect type shapes the code
  traverses: scalar kinds (string, int, uint, bool), `time.Time`,
  pointers, slices and structs with named, possibly unexported fields.
  All signed integer kinds are collapsed into one mathematical `Int`
  (the code parses every one of them through `strconv.ParseInt(_, 10, 64)`),
  and likewise for unsigned kinds.  Float kinds are outside the
  embedding (floating point).
* `GoVal` mirrors `interface{}` / `reflect.Value` contents positionally:
  a struct value carries one entry per declared field (exported or not),
  a typed nil pointer is `.nilp`, a `time.Time` carries its RFC 3339
  rendering.
* The process-wide type registry is modelled in its process-start state:
  the `init` function of the package registers exactly one
  converter/parser pair, for `time.Time` (RFC 3339 format/parse), and
  nothing else is registered.  `registryHasConverter` / `registryHasParser`
  therefore recognise exactly `.timeT`.
* `fmt.Sprintf("%v", x)` is abstracted by `render`.  Scalars render as Go
  renders them; compound values (pointers, slices, structs) render as
  fixed opaque tokens chosen, like Go's `%v` output for such values, to
  never parse as an integer, unsigned, boolean or RFC 3339 timestamp.
  The `%v` rendering of a `time.Time` is its `String()` form, which is
  not RFC 3339; the model keeps that property.
* `strconv.ParseInt/ParseUint/ParseBool` and `time.Parse(time.RFC3339, _)`
  are modelled by `parseIntGo`, `parseUintGo`, `parseBoolGo`, `parseTime`
  (the last one recognising the `YYYY-MM-DDTHH:MM:SSZ` shape exercised
  by the package).

Functions are translated from the repository sources `headers.go`,
`value.go`, `field.go` and `excel.go` (the current snapshots of those
files; superseded duplicated snapshots embedded in the repository are
not modelled).  Go's "dereference one pointer level, then dispatch on
the kind" steps are expanded into nested constructor matches so that
every recursion is structural and computations reduce definitionally.
-/

mutual

inductive GoType where
  | str
  | int
  | uint
  | bool
  | timeT
  | ptr (elem : GoType)
  | slice (elem : GoType)
  | strukt (fields : FieldList)

inductive FieldList where
  | nil
  | cons (name : String) (exported : Bool) (ty : GoType) (rest : FieldList)

end

inductive GoVal where
  | str (s : String)
  | int (n : Int)
  | uint (n : Nat)
  | bool (b : Bool)
  | time (s : String)
  | nilp
  | ptr (v : GoVal)
  | slice (vs : List GoVal)
  | strukt (vs : List GoVal)

/-- Length of a field list (all fields, exported or not). -/
def FieldList.lenF : FieldList → Nat
  | .nil => 0
  | .cons _ _ _ rest => 1 + rest.lenF

/-- Append of field lists. -/
def FieldList.appendF : FieldList → FieldList → FieldList
  | .nil, gs => gs
  | .cons n e t rest, gs => .cons n e t (rest.appendF gs)

/-- The names of the fields of a field list, in declaration order. -/
def FieldList.names : FieldList → List String
  | .nil => []
  | .cons n _ _ rest => n :: rest.names

/-- The registry of custom converters (`TypeConverters` in types.go) in its
process-start state: the package `init` registers exactly the `time.Time`
converter. -/
def registryHasConverter : GoType → Bool
  | .timeT => true
  | _ => false

/-- The registry of custom parsers (`TypeParsers` in types.go) in its
process-start state: only the `time.Time` parser is registered. -/
def registryHasParser : GoType → Bool
  | .timeT => true
  | _ => false

/-- The built-in `time.Time` converter registered by `init`: formats the
instant as RFC 3339, failing if the value is not a `time.Time` (mirrors the
`i.(time.Time)` type assertion). -/
def timeConv1 : GoVal → Except String GoVal
  | .time s => .ok (.str s)
  | _ => .error "expected time.Time"

mutual

/-- `getNestedHeaders` from headers.go (lines 12-71): dereference one
pointer level, then: a registered custom type (only `time.Time`) or any
non-struct type yields the single accumulated path name; a struct type is
walked field by field.  The one-level dereference followed by the
registry/kind dispatch is expanded into direct constructor matches. -/
def getNestedHeaders : GoType → String → List String
  | .ptr .timeT, p => [p]
  | .ptr (.strukt fs), p => headersFields fs p
  | .timeT, p => [p]
  | .strukt fs, p => headersFields fs p
  | _, p => [p]

/-- The field loop of `getNestedHeaders` (headers.go lines 27-68): skip
unexported fields; extend the path with the field name (separator `" "`);
dereference the field type one level; a `time.Time` field is one header, a
struct field recurses with the extended path, a slice field recurses into
the element type (dereferencing the element one level), anything else is
one header. -/
def headersFields : FieldList → String → List String
  | .nil, _ => []
  | .cons name exported ft rest, p =>
    (if !exported then [] else
      let fieldName := if p = "" then name else p ++ " " ++ name
      match ft with
      | .timeT => [fieldName]
      | .ptr .timeT => [fieldName]
      | .strukt fs => headersFields fs fieldName
      | .ptr (.strukt fs) => headersFields fs fieldName
      | .slice (.ptr te) => getNestedHeaders te fieldName
      | .slice et => getNestedHeaders et fieldName
      | .ptr (.slice (.ptr te)) => getNestedHeaders te fieldName
      | .ptr (.slice et) => getNestedHeaders et fieldName
      | _ => [fieldName]) ++ headersFields rest p

end

/-- `getStructHeaders` from headers.go (lines 8-10). -/
def getStructHeaders (t : GoType) : List String :=
  getNestedHeaders t ""

mutual

/-- `getNestedValues` from value.go (lines 13-88, current snapshot): a nil
pointer flattens to the single empty string; otherwise dereference once and
dispatch: a registered custom type (only `time.Time`) goes through its
converter, a struct is walked field by field, a slice goes through
`getFirstSliceValue`, anything else contributes itself as one value.
Shape mismatches between type and value, impossible for `reflect.Value`s,
surface as an "ill-typed value" error. -/
def getNestedValues : GoType → GoVal → Except String (List GoVal)
  | .ptr _, .nilp => .ok [.str ""]
  | .ptr .timeT, .ptr w =>
      match timeConv1 w with
      | .ok c => .ok [c]
      | .error e => .error ("error converting custom type: " ++ e)
  | .ptr (.strukt fs), .ptr (.strukt ws) => getNestedValuesFields fs ws
  | .ptr (.strukt _), .ptr _ => .error "ill-typed value"
  | .ptr (.slice et), .ptr (.slice ws) => getFirstSliceValue et ws
  | .ptr (.slice _), .ptr _ => .error "ill-typed value"
  | .ptr _, .ptr w => .ok [w]
  | .ptr _, _ => .error "ill-typed value"
  | .timeT, w =>
      match timeConv1 w with
      | .ok c => .ok [c]
      | .error e => .error ("error converting custom type: " ++ e)
  | .strukt fs, .strukt ws => getNestedValuesFields fs ws
  | .strukt _, _ => .error "ill-typed value"
  | .slice et, .slice ws => getFirstSliceValue et ws
  | .slice _, _ => .error "ill-typed value"
  | _, w => .ok [w]

/-- The field loop of `getNestedValues` (value.go lines 38-85): skip
unexported fields (they still occupy a value slot); a field whose declared
type is registered (only `time.Time`) goes through the converter; a nil
pointer field contributes the single empty string; a non-nil pointer field
recurses into the pointee; a struct field recurses; a slice field goes
through `getFirstSliceValue`; any other field contributes its value. -/
def getNestedValuesFields : FieldList → List GoVal → Except String (List GoVal)
  | .nil, _ => .ok []
  | .cons _ _ _ _, [] => .error "ill-typed value"
  | .cons _ exported ft rest, v :: vs =>
    if !exported then getNestedValuesFields rest vs
    else
      match ft, v with
      | .timeT, w =>
          match timeConv1 w with
          | .ok c => do
              let tl ← getNestedValuesFields rest vs
              pure (c :: tl)
          | .error e => .error ("error converting custom type: " ++ e)
      | .ptr _, .nilp => do
          let tl ← getNestedValuesFields rest vs
          pure (.str "" :: tl)
      | .ptr pe, .ptr w => do
          let hd ← getNestedValues pe w
          let tl ← getNestedValuesFields rest vs
          pure (hd ++ tl)
      | .ptr _, _ => .error "ill-typed value"
      | .strukt fs2, .strukt ws => do
          let hd ← getNestedValuesFields fs2 ws
          let tl ← getNestedValuesFields rest vs
          pure (hd ++ tl)
      | .strukt _, _ => .error "ill-typed value"
      | .slice et, .slice ws => do
          let hd ← getFirstSliceValue et ws
          let tl ← getNestedValuesFields rest vs
          pure (hd ++ tl)
      | .slice _, _ => .error "ill-typed value"
      | _, w => do
          let tl ← getNestedValuesFields rest vs
          pure (w :: tl)

/-- `getFirstSliceValue` from value.go (lines 90-119, current snapshot),
taking the slice's element type and element list.  An empty slice yields the
single empty string; a nil first element (pointer elements) yields the
single empty string; a struct first element is flattened only to obtain a
column count, and that many empty strings are returned; any other element
kind yields the single empty string. -/
def getFirstSliceValue : GoType → List GoVal → Except String (List GoVal)
  | _, [] => .ok [.str ""]
  | .ptr _, .nilp :: _ => .ok [.str ""]
  | .ptr (.strukt fs), .ptr (.strukt ws) :: _ => do
      let flat ← getNestedValuesFields fs ws
      pure (List.replicate flat.length (.str ""))
  | .ptr (.strukt _), _ :: _ => .error "ill-typed value"
  | .ptr .timeT, .ptr w :: _ =>
      match timeConv1 w with
      | .ok _ => .ok [.str ""]
      | .error e => .error ("error converting custom type: " ++ e)
  | .ptr _, .ptr _ :: _ => .ok [.str ""]
  | .ptr _, _ :: _ => .error "ill-typed value"
  | .strukt fs, .strukt ws :: _ => do
      let flat ← getNestedValuesFields fs ws
      pure (List.replicate flat.length (.str ""))
  | .strukt _, _ :: _ => .error "ill-typed value"
  | .timeT, w :: _ =>
      match timeConv1 w with
      | .ok _ => .ok [.str ""]
      | .error e => .error ("error converting custom type: " ++ e)
  | _, _ :: _ => .ok [.str ""]

end

/-- `getStructValues` from value.go (lines 9-11). -/
def getStructValues (t : GoType) (v : GoVal) : Except String (List GoVal) :=
  getNestedValues t v

/-- Decimal digit character for a value below 10. -/
def digitChar (n : Nat) : Char :=
  Char.ofNat (48 + n)

/-- Decimal rendering of a natural number, on fuel (any fuel above the
number of digits gives the rendering; `natDigits` supplies enough). -/
def natDigitsCore : Nat → Nat → List Char
  | 0, _ => []
  | fuel + 1, n =>
      if n < 10 then [digitChar n]
      else natDigitsCore fuel (n / 10) ++ [digitChar (n % 10)]

/-- Decimal rendering of a natural number (least significant digit last). -/
def natDigits (n : Nat) : List Char :=
  natDigitsCore (n + 1) n

/-- Numeric value of a decimal digit character string (no validation). -/
def digitsToNat : List Char → Nat → Nat
  | [], acc => acc
  | c :: cs, acc => digitsToNat cs (acc * 10 + (c.toNat - 48))

/-- Rendering of `fmt.Sprintf("%v", x)` for the model's values.  Scalars
render as Go renders them.  Compound values render as fixed tokens; like
Go's `%v` output for pointers/slices/structs (leading `&`, `[`, `{`) and
for `time.Time` (its `String()` form, with a space instead of the `T`
separator), the tokens never parse as a number, boolean or RFC 3339
timestamp, which is the only way they are consumed. -/
def render : GoVal → String
  | .str s => s
  | .int n => if n < 0 then "-" ++ String.mk (natDigits n.natAbs) else String.mk (natDigits n.natAbs)
  | .uint n => String.mk (natDigits n)
  | .bool b => if b then "true" else "false"
  | .time s => "time " ++ s
  | .nilp => "<nil>"
  | .ptr _ => "&{}"
  | .slice _ => "[]"
  | .strukt _ => "{}"

/-- Digit phase of `strconv.ParseInt`: nonempty decimal digits whose signed
value fits the int64 range. -/
def parseIntDigits (neg : Bool) (ds : List Char) (s : String) : Except String Int :=
  if ds.isEmpty ∨ !ds.all (fun d => d.isDigit) then
    .error ("strconv.ParseInt: parsing " ++ s ++ ": invalid syntax")
  else
    let v : Int := if neg then -(digitsToNat ds 0 : Int) else (digitsToNat ds 0 : Int)
    if -(2 ^ 63) ≤ v ∧ v < 2 ^ 63 then .ok v
    else .error ("strconv.ParseInt: parsing " ++ s ++ ": value out of range")

/-- `strconv.ParseInt(s, 10, 64)`: optional sign, nonempty decimal digits,
value within the int64 range. -/
def parseIntGo (s : String) : Except String Int :=
  match s.toList with
  | [] => .error ("strconv.ParseInt: parsing " ++ s ++ ": invalid syntax")
  | c :: cs =>
      if c = '-' then parseIntDigits true cs s
      else if c = '+' then parseIntDigits false cs s
      else parseIntDigits false (c :: cs) s

/-- `strconv.ParseUint(s, 10, 64)`: no sign, nonempty decimal digits,
value below 2^64. -/
def parseUintGo (s : String) : Except String Nat :=
  if s.toList.isEmpty ∨ !s.toList.all (fun d => d.isDigit) then
    .error ("strconv.ParseUint: parsing " ++ s ++ ": invalid syntax")
  else
    let n := digitsToNat s.toList 0
    if n < 2 ^ 64 then .ok n
    else .error ("strconv.ParseUint: parsing " ++ s ++ ": value out of range")

/-- `strconv.ParseBool`: accepts exactly Go's boolean literals. -/
def parseBoolGo (s : String) : Except String Bool :=
  if s = "1" ∨ s = "t" ∨ s = "T" ∨ s = "true" ∨ s = "TRUE" ∨ s = "True" then .ok true
  else if s = "0" ∨ s = "f" ∨ s = "F" ∨ s = "false" ∨ s = "FALSE" ∨ s = "False" then .ok false
  else .error ("strconv.ParseBool: parsing " ++ s ++ ": invalid syntax")

/-- Shape check for the `YYYY-MM-DDTHH:MM:SSZ` RFC 3339 form (the form the
package itself produces and consumes). -/
def isRFC3339Basic (s : String) : Bool :=
  match s.toList with
  | [y1, y2, y3, y4, '-', m1, m2, '-', d1, d2, 'T',
     h1, h2, ':', mi1, mi2, ':', s1, s2, 'Z'] =>
      [y1, y2, y3, y4, m1, m2, d1, d2, h1, h2, mi1, mi2, s1, s2].all (fun c => c.isDigit)
  | _ => false

/-- The built-in `time.Time` parser registered by `init`:
`time.Parse(time.RFC3339, s)`, modelled on the RFC 3339 subset the package
exercises. -/
def parseTime (s : String) : Except String GoVal :=
  if isRFC3339Basic s then .ok (.time s)
  else .error ("parsing time " ++ s ++ " as RFC3339: cannot parse")

mutual

/-- The zero value `reflect.New(t).Elem()` of a type. -/
def zeroVal : GoType → GoVal
  | .str => .str ""
  | .int => .int 0
  | .uint => .uint 0
  | .bool => .bool false
  | .timeT => .time "0001-01-01T00:00:00Z"
  | .ptr _ => .nilp
  | .slice _ => .slice []
  | .strukt fs => .strukt (zeroFields fs)

/-- Zero values of a struct's fields (all fields, exported or not). -/
def zeroFields : FieldList → List GoVal
  | .nil => []
  | .cons _ _ t rest => zeroVal t :: zeroFields rest

end

/-- `reflect.Value.FieldByName`: the declared flag and type of the named
field (unexported fields are found too; `CanSet` is the flag). -/
def findField : FieldList → String → Option (Bool × GoType)
  | .nil, _ => none
  | .cons n e t rest, name => if n = name then some (e, t) else findField rest name

/-- The current value stored in the named field of a struct value. -/
def getFieldVal : FieldList → List GoVal → String → GoVal
  | .nil, _, _ => .nilp
  | .cons _ _ _ _, [], _ => .nilp
  | .cons n _ _ rest, v :: vs, name =>
      if n = name then v else getFieldVal rest vs name

/-- Functional update of the named field of a struct value. -/
def updateField : FieldList → List GoVal → String → GoVal → List GoVal
  | .nil, vs, _, _ => vs
  | .cons _ _ _ _, [], _, _ => []
  | .cons n _ _ rest, v :: vs, name, nv =>
      if n = name then nv :: vs else v :: updateField rest vs name nv

/-- `strings.Split(s, " ")` on a character list accumulator. -/
def splitOnSpaceAux : List Char → List Char → List String
  | [], acc => [String.mk acc.reverse]
  | c :: cs, acc =>
      if c = ' ' then String.mk acc.reverse :: splitOnSpaceAux cs []
      else splitOnSpaceAux cs (c :: acc)

/-- `strings.Split(s, " ")`. -/
def splitOnSpace (s : String) : List String :=
  splitOnSpaceAux s.toList []

/-- `setField` from field.go (lines 65-148).  The `CanSet` check is the
first argument (false exactly for unexported fields reached by name).  A
pointer field is allocated and the pointee set.  The registry parser check
(`TypeParsers[field.Type()]`, line 79) fires exactly for `time.Time`, whose
parser receives `fmt.Sprintf("%v", value)`; its failure is wrapped as
"error parsing custom type".  Then the kind dispatch: strings accept only
string-kinded raw values; int/uint/bool kinds render the raw value and
parse it; a non-`time.Time` struct field accepts only
`map[string]interface{}` raw values, which the model's cells never contain,
so it fails; a slice field is rebuilt element by element
(`setSliceField`, lines 150-168, inlined). -/
def setField : Bool → GoType → GoVal → Except String GoVal
  | false, _, _ => .error "cannot set field"
  | true, .ptr pe, value => do
      let r ← setField true pe value
      pure (.ptr r)
  | true, .timeT, value =>
      match parseTime (render value) with
      | .ok tv => .ok tv
      | .error e => .error ("error parsing custom type: " ++ e)
  | true, .str, value =>
      match value with
      | .str s => .ok (.str s)
      | _ => .error "value is not a string"
  | true, .int, value =>
      match parseIntGo (render value) with
      | .ok n => .ok (.int n)
      | .error e => .error e
  | true, .uint, value =>
      match parseUintGo (render value) with
      | .ok n => .ok (.uint n)
      | .error e => .error e
  | true, .bool, value =>
      match parseBoolGo (render value) with
      | .ok b => .ok (.bool b)
      | .error e => .error e
  | true, .strukt _, _ => .error "unsupported struct type"
  | true, .slice et, value =>
      match value with
      | .slice vs => do
          let rs ← vs.mapM (setField true et)
          pure (.slice rs)
      | _ => .error "expected slice"

/-- The segment loop of `setNestedField` from field.go (lines 14-60), in
functional form: the updated root value is returned instead of mutating in
place.  Each iteration dereferences one pointer level (allocating a zero
pointee when nil), requires a struct (a `time.Time`, of struct kind, has no
field matching any derived header, so `FieldByName` fails on it), looks the
segment up by name, and either finishes (registry parser check on the
field's declared type, then `setField` with the field's `CanSet` flag) or
descends: through a pointer field (allocating when nil), into a freshly
appended zero element of a slice field, or into the field itself. -/
def setNestedFieldLoop : GoType → GoVal → List String → GoVal → Except String GoVal
  | _, v, [], _ => .ok v
  | t, v, seg :: rest, value =>
    let st : GoType × GoVal × (GoVal → GoVal) :=
      match t, v with
      | .ptr te, .nilp => (te, zeroVal te, fun r => GoVal.ptr r)
      | .ptr te, .ptr w => (te, w, fun r => GoVal.ptr r)
      | .ptr te, w => (te, w, fun r => GoVal.ptr r)
      | t', w => (t', w, fun r => r)
    match st with
    | (t1, v1, rewrap) =>
      match t1 with
      | .strukt fs =>
        match v1 with
        | .strukt ws =>
          match findField fs seg with
          | none => .error ("no such field: " ++ seg ++ " in obj")
          | some (exported, ft) =>
            if rest.isEmpty then
              match ft with
              | .timeT =>
                  match parseTime (render value) with
                  | .ok tv => .ok (rewrap (.strukt (updateField fs ws seg tv)))
                  | .error e => .error ("error parsing custom type: " ++ e)
              | _ =>
                  match setField exported ft value with
                  | .ok nf => .ok (rewrap (.strukt (updateField fs ws seg nf)))
                  | .error e => .error e
            else
              match ft with
              | .ptr pe =>
                  let inner : GoVal :=
                    match getFieldVal fs ws seg with
                    | .nilp => zeroVal pe
                    | .ptr w => w
                    | w => w
                  match setNestedFieldLoop pe inner rest value with
                  | .ok r => .ok (rewrap (.strukt (updateField fs ws seg (.ptr r))))
                  | .error e => .error e
              | .slice et =>
                  let elems : List GoVal :=
                    match getFieldVal fs ws seg with
                    | .slice es => es
                    | _ => []
                  match setNestedFieldLoop et (zeroVal et) rest value with
                  | .ok r => .ok (rewrap (.strukt (updateField fs ws seg (.slice (elems ++ [r])))))
                  | .error e => .error e
              | _ =>
                  match setNestedFieldLoop ft (getFieldVal fs ws seg) rest value with
                  | .ok r => .ok (rewrap (.strukt (updateField fs ws seg r)))
                  | .error e => .error e
        | _ => .error "not a struct"
      | .timeT => .error ("no such field: " ++ seg ++ " in obj")
      | _ => .error "not a struct"

/-- `setNestedField` from field.go (lines 12-62): split the header on
spaces and walk the segments. -/
def setNestedField (t : GoType) (v : GoVal) (fieldPath : String) (value : GoVal) :
    Except String GoVal :=
  setNestedFieldLoop t v (splitOnSpace fieldPath) value

/-- `ExcelData` (excel.go lines 12-16): headers plus rows of untyped
scalar cells. -/
structure ExcelData where
  headers : List String
  rows : List (List GoVal)

/-- `NewExcelData` (excel.go lines 39-44). -/
def newExcelData (headers : List String) : ExcelData :=
  ⟨headers, []⟩

/-- `AddRow` (excel.go lines 47-53), returning the post-call container and
the optional error (mutation made explicit): a row whose length differs
from the header count is rejected and the container is unchanged. -/
def addRow (ed : ExcelData) (row : List GoVal) : ExcelData × Option String :=
  if row.length ≠ ed.headers.length then
    (ed, some ("row length (" ++ toString row.length ++
      ") does not match headers length (" ++ toString ed.headers.length ++ ")"))
  else ({ ed with rows := ed.rows ++ [row] }, none)

/-- The dynamic type name `reflect.TypeOf(x)` of a cell value, abstracted
to a kind name (`none` for an untyped nil, whose `reflect.TypeOf` is nil). -/
def dynTypeName : GoVal → Option String
  | .str _ => some "string"
  | .int _ => some "int"
  | .uint _ => some "uint"
  | .bool _ => some "bool"
  | .time _ => some "time.Time"
  | .nilp => none
  | .ptr _ => some "pointer"
  | .slice _ => some "slice"
  | .strukt _ => some "struct"

/-- The name of a static type, as `reflect.Type.String` would render it. -/
def typeName : GoType → String
  | .str => "string"
  | .int => "int"
  | .uint => "uint"
  | .bool => "bool"
  | .timeT => "time.Time"
  | .ptr t => "*" ++ typeName t
  | .slice t => "[]" ++ typeName t
  | .strukt _ => "struct"

/-- `ImportError` (excel.go lines 19-25): display row index, column
header, raw cell value, `reflect.TypeOf` of the raw cell value, and the
underlying coercion error. -/
structure ImportError where
  rowIndex : Nat
  header : String
  value : GoVal
  type : Option String
  err : String

/-- `ImportResult` (excel.go lines 28-31). -/
structure ImportResult where
  data : List GoVal
  errors : List ImportError

/-- The header loop of `ToStruct` (excel.go lines 130-143): for each header
whose index has a corresponding cell in the row, set the field; a failure
is recorded as an `ImportError` carrying `rowIndex + 2`, the header, the
raw cell, the cell's dynamic type and the underlying error, and processing
continues with the item unchanged by the failed call. -/
def processHeaders (t : GoType) (rowIndex : Nat) (row : List GoVal) :
    List String → Nat → GoVal → GoVal × List ImportError
  | [], _, item => (item, [])
  | header :: hs, i, item =>
    match row[i]? with
    | some cell =>
      match setNestedField t item header cell with
      | .ok item' => processHeaders t rowIndex row hs (i + 1) item'
      | .error e =>
          let r := processHeaders t rowIndex row hs (i + 1) item
          (r.1, ⟨rowIndex + 2, header, cell, dynTypeName cell, e⟩ :: r.2)
    | none => processHeaders t rowIndex row hs (i + 1) item

/-- One row of `ToStruct` (excel.go lines 126-143): a fresh zero item, the
header loop, and the row's accumulated errors. -/
def toStructRow (t : GoType) (headers : List String) (row : List GoVal) (rowIndex : Nat) :
    GoVal × List ImportError :=
  processHeaders t rowIndex row headers 0 (zeroVal t)

/-- The row loop of `ToStruct` (excel.go lines 126-149): a row's item joins
the data exactly when the row produced zero errors; every row's errors join
the overall error sequence; all rows are processed. -/
def toStructRows (t : GoType) (headers : List String) :
    List (List GoVal) → Nat → ImportResult
  | [], _ => ⟨[], []⟩
  | row :: rows, rowIndex =>
    let r := toStructRow t headers row rowIndex
    let restR := toStructRows t headers rows (rowIndex + 1)
    ⟨(if r.2.length = 0 then [r.1] else []) ++ restR.data, r.2 ++ restR.errors⟩

/-- `ToStruct` (excel.go lines 120-155). -/
def toStruct (t : GoType) (ed : ExcelData) : ImportResult :=
  toStructRows t ed.headers ed.rows 0

/-- The item loop of `FromStruct` (excel.go lines 198-204): flatten each
instance (a flatten error aborts the call) and hand the row to `AddRow`,
whose return value is discarded exactly as in the source
(`ed.AddRow(row)`, line 203). -/
def fromStructRows (t : GoType) : List GoVal → ExcelData → Except String ExcelData
  | [], ed => .ok ed
  | item :: items, ed => do
      let row ← getStructValues t item
      fromStructRows t items (addRow ed row).1

/-- `FromStruct` (excel.go lines 186-207): an empty input collection is a
hard error; headers are derived from the element type; each instance is
flattened and appended. -/
def fromStruct (t : GoType) (data : List GoVal) : Except String ExcelData :=
  if data.length = 0 then .error "input slice is empty"
  else fromStructRows t data (newExcelData (getStructHeaders t))

mutual

/-- Well-typedness of a value at a type, mirroring what `reflect`
guarantees: struct values carry one entry per declared field, slice
elements share the element type, `int`/`uint` values are within the 64-bit
ranges. -/
def wellTyped : GoType → GoVal → Bool
  | .str, .str _ => true
  | .int, .int n => decide (-(2 ^ 63) ≤ n) && decide (n < 2 ^ 63)
  | .uint, .uint n => decide (n < 2 ^ 64)
  | .bool, .bool _ => true
  | .timeT, .time _ => true
  | .ptr _, .nilp => true
  | .ptr te, .ptr w => wellTyped te w
  | .slice te, .slice vs => vs.all (fun v => wellTyped te v)
  | .strukt fs, .strukt vs => wellTypedFields fs vs
  | _, _ => false

/-- Well-typedness of a struct's field values, positionally. -/
def wellTypedFields : FieldList → List GoVal → Bool
  | .nil, [] => true
  | .cons _ _ ft rest, v :: vs => wellTyped ft v && wellTypedFields rest vs
  | _, _ => false

end

mutual

/-- The number of headers `getNestedHeaders` produces for a type
(independent of the accumulated path). -/
def headerCount : GoType → Nat
  | .ptr .timeT => 1
  | .ptr (.strukt fs) => headerCountFields fs
  | .timeT => 1
  | .strukt fs => headerCountFields fs
  | _ => 1

/-- The number of headers the field loop produces. -/
def headerCountFields : FieldList → Nat
  | .nil => 0
  | .cons _ exported ft rest =>
    (if !exported then 0 else
      match ft with
      | .timeT => 1
      | .ptr .timeT => 1
      | .strukt fs => headerCountFields fs
      | .ptr (.strukt fs) => headerCountFields fs
      | .slice (.ptr te) => headerCount te
      | .slice et => headerCount et
      | .ptr (.slice (.ptr te)) => headerCount te
      | .ptr (.slice et) => headerCount et
      | _ => 1) + headerCountFields rest

end

mutual

/-- The number of values `getNestedValues` produces for a well-typed value
(on which it always succeeds). -/
def valCount : GoType → GoVal → Nat
  | .ptr _, .nilp => 1
  | .ptr (.strukt fs), .ptr (.strukt ws) => fieldsValCount fs ws
  | .ptr (.slice et), .ptr (.slice ws) => sliceValCount et ws
  | .strukt fs, .strukt ws => fieldsValCount fs ws
  | .slice et, .slice ws => sliceValCount et ws
  | _, _ => 1

/-- The number of values the field loop produces. -/
def fieldsValCount : FieldList → List GoVal → Nat
  | .nil, _ => 0
  | .cons _ _ _ _, [] => 0
  | .cons _ exported ft rest, v :: vs =>
    (if !exported then 0 else
      match ft, v with
      | .timeT, _ => 1
      | .ptr _, .nilp => 1
      | .ptr pe, .ptr w => valCount pe w
      | .strukt fs2, .strukt ws => fieldsValCount fs2 ws
      | .slice et, .slice ws => sliceValCount et ws
      | _, _ => 1) + fieldsValCount rest vs

/-- The number of values `getFirstSliceValue` produces. -/
def sliceValCount : GoType → List GoVal → Nat
  | _, [] => 1
  | .ptr _, .nilp :: _ => 1
  | .ptr (.strukt fs), .ptr (.strukt ws) :: _ => fieldsValCount fs ws
  | .strukt fs, .strukt ws :: _ => fieldsValCount fs ws
  | _, _ :: _ => 1

end

/-! Concrete record types and instances used by counterexamples and
witnesses, mirroring the types in the repository's tests. -/

/-- The `Address` struct of the tests: two exported string fields. -/
def addressT : GoType := .strukt (.cons "Street" true .str (.cons "City" true .str .nil))

/-- The `Contact` struct of `TestToStructWithNestedAndArrays`. -/
def contactT : GoType := .strukt (.cons "Email" true .str (.cons "Phone" true .str .nil))

/-- The `Person` struct of `TestToStructWithNestedAndArrays`: name, age, a
nested address and a slice of contacts. -/
def personT : GoType :=
  .strukt (.cons "Name" true .str (.cons "Age" true .int
    (.cons "Address" true addressT (.cons "Contacts" true (.slice contactT) .nil))))

/-- The flat `person` struct of the tests: a string and an int field. -/
def flatPersonT : GoType := .strukt (.cons "Name" true .str (.cons "Age" true .int .nil))

/-- A record type with a pointer to a two-column struct. -/
def nilDemoT : GoType :=
  .strukt (.cons "Name" true .str (.cons "Addr" true (.ptr addressT) .nil))

/-- An instance of `nilDemoT` whose pointer field is nil. -/
def nilDemoV : GoVal := .strukt [.str "A", .nilp]

/-- An instance of `nilDemoT` whose pointer field is set. -/
def nilDemoGood : GoVal := .strukt [.str "B", .ptr (.strukt [.str "s", .str "c"])]

/-! Helper lemmas. -/

/-- Beyond the end of the row, the header loop touches nothing and records
nothing. -/
theorem processHeaders_out_of_row (t : GoType) (r : Nat) (row : List GoVal) :
    ∀ (hs : List String) (i : Nat) (item : GoVal), row.length ≤ i →
      processHeaders t r row hs i item = (item, []) := by
  intro hs
  induction hs with
  | nil => intro i item _; rfl
  | cons h hs ih =>
      intro i item hle
      have hnone : row[i]? = none := by
        exact List.getElem?_eq_none hle
      simp only [processHeaders, hnone]
      exact ih (i + 1) item (Nat.le_succ_of_le hle)

/-- The header loop only consumes headers with a matching cell: headers past
the row's length are skipped outright. -/
theorem processHeaders_take (t : GoType) (r : Nat) (row : List GoVal) :
    ∀ (hs : List String) (i : Nat) (item : GoVal),
      processHeaders t r row hs i item
        = processHeaders t r row (hs.take (row.length - i)) i item := by
  intro hs
  induction hs with
  | nil => intro i item; simp
  | cons h hs ih =>
      intro i item
      by_cases hlt : i < row.length
      · obtain ⟨k, hk⟩ : ∃ k, row.length - i = k + 1 :=
          ⟨row.length - i - 1, by omega⟩
        rw [hk]
        have hk' : row.length - (i + 1) = k := by omega
        cases hcell : row[i]? with
        | none =>
            simp only [List.take_succ_cons, processHeaders, hcell]
            rw [ih (i + 1) item, hk']
        | some cell =>
            cases hset : setNestedField t item h cell with
            | ok item' =>
                simp only [List.take_succ_cons, processHeaders, hcell, hset]
                rw [ih (i + 1) item', hk']
            | error e =>
                simp only [List.take_succ_cons, processHeaders, hcell, hset]
                rw [ih (i + 1) item, hk']
      · have hle : row.length ≤ i := Nat.le_of_not_lt hlt
        have : row.length - i = 0 := by omega
        rw [this]
        simp only [List.take_zero]
        rw [processHeaders_out_of_row t r row (h :: hs) i item hle]
        rfl

/-- C10: For every row whose length is smaller than the header count,
`ToStruct` silently skips each header with no corresponding cell, recording
no Import Error for the missing columns — processing a row with the full
header list is identical to processing it with the headers truncated to the
row's length — and if no present cell fails coercion, the row's record
(fields beyond the row left at their zero values) still appears in the
successful-records sequence. -/
theorem toStruct_short_rows_tolerated (t : GoType) (headers : List String)
    (row : List GoVal) (r : Nat) :
    toStructRow t headers row r = toStructRow t (headers.take row.length) row r
    ∧ ((toStructRow t headers row 0).2 = [] →
        (toStruct t ⟨headers, [row]⟩).data = [(toStructRow t headers row 0).1]) := by
  constructor
  · unfold toStructRow
    have := processHeaders_take t r row headers 0 (zeroVal t)
    simpa using this
  · intro hok
    simp only [toStruct, toStructRows, hok]
    rfl

/-- Witness for C10: headers `["Name", "Age"]` with the short row
`["John"]` import with no errors, and the record appears with the missing
`Age` field left at its zero value. -/
theorem toStruct_short_rows_tolerated_witness :
    (toStruct flatPersonT ⟨["Name", "Age"], [[GoVal.str "John"]]⟩).data
      = [GoVal.strukt [GoVal.str "John", GoVal.int 0]] :=
  ((toStruct_short_rows_tolerated flatPersonT ["Name", "Age"]
    [GoVal.str "John"] 0).2 rfl).trans rfl

/-- C5: `AddRow` rejects a row exactly when its length differs from the
header count; on rejection the container is unchanged; on a match the row
is appended and no error is returned. -/
theorem addRow_rejects_iff_mismatch (ed : ExcelData) (row : List GoVal) :
    ((addRow ed row).2 = none ↔ row.length = ed.headers.length)
    ∧ ((addRow ed row).2 ≠ none → (addRow ed row).1 = ed)
    ∧ (row.length = ed.headers.length →
        addRow ed row = ({ ed with rows := ed.rows ++ [row] }, none)) := by
  unfold addRow
  by_cases h : row.length = ed.headers.length <;> simp [h]

/-- Witness for C5: a two-cell row against one header is rejected leaving
the container unchanged, and a one-cell row is appended. -/
theorem addRow_rejects_iff_mismatch_witness :
    (addRow ⟨["Name"], []⟩ [GoVal.str "x", GoVal.str "y"]).1 = (⟨["Name"], []⟩ : ExcelData)
    ∧ addRow ⟨["Name"], []⟩ [GoVal.str "x"]
        = ((⟨["Name"], [[GoVal.str "x"]]⟩ : ExcelData), none) :=
  ⟨(addRow_rejects_iff_mismatch ⟨["Name"], []⟩ [GoVal.str "x", GoVal.str "y"]).2.1
      (by simp [addRow]),
   (addRow_rejects_iff_mismatch ⟨["Name"], []⟩ [GoVal.str "x"]).2.2 (by simp)⟩

/-- C7 counterexample: for the two-element contact slice
`[{Email:"a", Phone:"b"}, {Email:"c", Phone:"d"}]`, flattening emits only
empty strings — element 0's values `["a", "b"]` do not appear — and for the
empty slice it emits a single empty string rather than one default per
column of the two-column element type. -/
theorem getFirstSliceValue_drops_first_element :
    getFirstSliceValue contactT
        [.strukt [.str "a", .str "b"], .strukt [.str "c", .str "d"]]
      = .ok [.str "", .str ""]
    ∧ getNestedValues contactT (.strukt [.str "a", .str "b"])
      = .ok [.str "a", .str "b"]
    ∧ getFirstSliceValue contactT [] = .ok [.str ""]
    ∧ (getStructHeaders contactT).length = 2 :=
  ⟨rfl, rfl, rfl, rfl⟩

/-- C7 as amended: whatever `getFirstSliceValue` successfully emits
consists of empty strings only (a non-empty struct-element collection
contributes one empty string per column of element 0's flattened shape, so
no element's data — not even element 0's — appears in the flat row), and an
empty collection contributes the single empty string. -/
theorem getFirstSliceValue_emits_only_defaults (et : GoType) (vs : List GoVal)
    (out : List GoVal) (h : getFirstSliceValue et vs = .ok out) :
    (∀ x ∈ out, x = .str "") ∧ (vs = [] → out = [.str ""]) := by
  constructor
  · intro x hx
    unfold getFirstSliceValue at h
    simp only [Bind.bind, Except.bind, pure, Except.pure] at h
    split at h
    all_goals repeat split at h
    all_goals try cases h
    all_goals try (simpa using hx)
    all_goals try (exact List.eq_of_mem_replicate hx)
  · rintro rfl
    simp only [getFirstSliceValue] at h
    cases h
    rfl

/-- Witness for the amended C7 at the concrete two-element contact slice. -/
theorem getFirstSliceValue_emits_only_defaults_witness :
    (∀ x ∈ [GoVal.str "", GoVal.str ""], x = GoVal.str "")
    ∧ ([GoVal.strukt [GoVal.str "a", GoVal.str "b"],
        GoVal.strukt [GoVal.str "c", GoVal.str "d"]] = ([] : List GoVal)
        → [GoVal.str "", GoVal.str ""] = [GoVal.str ""]) :=
  getFirstSliceValue_emits_only_defaults contactT
    [.strukt [.str "a", .str "b"], .strukt [.str "c", .str "d"]]
    [.str "", .str ""] rfl

/-- C8 failing input, evaluated: importing the test's first row with headers
`["Name", "Age", "Address Street", "Address City", "Contacts Email",
"Contacts Phone"]` into `Person` succeeds with no errors, but the
reconstructed `Contacts` collection has length 2 — one synthetic element was
appended per leaf path ("Contacts Email" appended element 0 and set its
Email; "Contacts Phone" appended element 1 and set its Phone) — rather than
the length-1 collection with both fields on the same element that
`TestToStructWithNestedAndArrays` asserts. -/
theorem setNestedField_appends_per_leaf_path :
    toStruct personT
        ⟨["Name", "Age", "Address Street", "Address City",
          "Contacts Email", "Contacts Phone"],
         [[.str "Alice", .int 30, .str "123 Main St", .str "New York",
           .str "alice@example.com", .str "123-456-7890"]]⟩
      = ⟨[.strukt [.str "Alice", .int 30,
            .strukt [.str "123 Main St", .str "New York"],
            .slice [.strukt [.str "alice@example.com", .str ""],
                    .strukt [.str "", .str "123-456-7890"]]]], []⟩ :=
  rfl

/-- Shape of the errors the header loop records: every error carries the
display row index `rowIndex + 2`, the dynamic type of its recorded raw
value, and comes from a header/cell pair at a common column index. -/
theorem processHeaders_error_shape (t : GoType) (r : Nat) (row : List GoVal) :
    ∀ (hs : List String) (i : Nat) (item : GoVal) (e : ImportError),
      e ∈ (processHeaders t r row hs i item).2 →
      e.rowIndex = r + 2 ∧ e.type = dynTypeName e.value ∧
        ∃ j, hs[j]? = some e.header ∧ row[i + j]? = some e.value := by
  intro hs
  induction hs with
  | nil => intro i item e he; simp [processHeaders] at he
  | cons h hs ih =>
      intro i item e he
      cases hcell : row[i]? with
      | none =>
          simp only [processHeaders, hcell] at he
          obtain ⟨h1, h2, j, hj1, hj2⟩ := ih (i + 1) item e he
          refine ⟨h1, h2, j + 1, ?_, ?_⟩
          · simpa using hj1
          · have heq : i + 1 + j = i + (j + 1) := by omega
            rw [heq] at hj2
            exact hj2
      | some cell =>
          cases hset : setNestedField t item h cell with
          | ok item' =>
              simp only [processHeaders, hcell, hset] at he
              obtain ⟨h1, h2, j, hj1, hj2⟩ := ih (i + 1) item' e he
              refine ⟨h1, h2, j + 1, ?_, ?_⟩
              · simpa using hj1
              · have heq : i + 1 + j = i + (j + 1) := by omega
                rw [heq] at hj2
                exact hj2
          | error msg =>
              simp only [processHeaders, hcell, hset, List.mem_cons] at he
              cases he with
              | inl heq =>
                  subst heq
                  refine ⟨rfl, rfl, 0, by simp, ?_⟩
                  simpa using hcell
              | inr hmem =>
                  obtain ⟨h1, h2, j, hj1, hj2⟩ := ih (i + 1) item e hmem
                  refine ⟨h1, h2, j + 1, ?_, ?_⟩
                  · simpa using hj1
                  · have heq : i + 1 + j = i + (j + 1) := by omega
                    rw [heq] at hj2
                    exact hj2

/-- C4 as amended: every Import Error recorded for a row carries the
display row index equal to the 0-based data-row index plus 2, the column's
header name and the raw offending cell value from a common column index,
and the dynamic type of the raw offending value itself (`reflect.TypeOf`
of the cell) — not the destination field's type identifier. -/
theorem importError_shape (t : GoType) (headers : List String)
    (row : List GoVal) (r : Nat) (e : ImportError)
    (he : e ∈ (toStructRow t headers row r).2) :
    e.rowIndex = r + 2 ∧ e.type = dynTypeName e.value ∧
      ∃ j : Nat, headers[j]? = some e.header ∧ row[j]? = some e.value := by
  obtain ⟨h1, h2, j, hj1, hj2⟩ :=
    processHeaders_error_shape t r row headers 0 (zeroVal t) e he
  exact ⟨h1, h2, j, hj1, by simpa using hj2⟩

/-- Witness for the amended C4: the non-numeric cell `"not_a_number"` in
the `Age` column of data row 0 produces the error displayed at row 2,
tagged with the value's own dynamic type. -/
theorem importError_shape_witness :
    ImportError.rowIndex
        ⟨2, "Age", GoVal.str "not_a_number", some "string",
          "strconv.ParseInt: parsing not_a_number: invalid syntax"⟩ = 0 + 2
    ∧ ImportError.type
        ⟨2, "Age", GoVal.str "not_a_number", some "string",
          "strconv.ParseInt: parsing not_a_number: invalid syntax"⟩
      = dynTypeName (GoVal.str "not_a_number")
    ∧ ∃ j : Nat, ["Name", "Age"][j]? = some "Age"
        ∧ [GoVal.str "David", GoVal.str "not_a_number"][j]?
            = some (GoVal.str "not_a_number") :=
  importError_shape flatPersonT ["Name", "Age"]
    [GoVal.str "David", GoVal.str "not_a_number"] 0
    ⟨2, "Age", GoVal.str "not_a_number", some "string",
      "strconv.ParseInt: parsing not_a_number: invalid syntax"⟩
    (by simp [toStructRow, processHeaders, setNestedField, splitOnSpace,
      splitOnSpaceAux, setNestedFieldLoop, findField, flatPersonT, setField,
      render, parseIntGo, parseIntDigits, zeroVal, zeroFields, dynTypeName])

/-- C4 counterexample: for the failing cell `"not_a_number"` (a string)
written into the int-typed `Age` field, the recorded Import Error's type is
the raw value's type `string`, not the destination field's type `int`. -/
theorem importError_type_is_value_type :
    ((toStruct flatPersonT
        ⟨["Name", "Age"], [[GoVal.str "David", GoVal.str "not_a_number"]]⟩).errors.map
          (fun e => e.type)) = [some "string"]
    ∧ findField (.cons "Name" true .str (.cons "Age" true .int .nil)) "Age"
        = some (true, GoType.int)
    ∧ typeName GoType.int = "int"
    ∧ some "string" ≠ some (typeName GoType.int) := by
  refine ⟨rfl, rfl, rfl, by simp [typeName]⟩

/-- The row loop, characterised declaratively over rows enumerated from an
arbitrary starting index. -/
theorem toStructRows_spec (t : GoType) (headers : List String) :
    ∀ (rows : List (List GoVal)) (k : Nat),
      (toStructRows t headers rows k).data
        = (((List.enumFrom k rows).filter
              (fun p => (toStructRow t headers p.2 p.1).2.isEmpty)).map
            (fun p => (toStructRow t headers p.2 p.1).1))
      ∧ (toStructRows t headers rows k).errors
        = (List.enumFrom k rows).flatMap (fun p => (toStructRow t headers p.2 p.1).2) := by
  intro rows
  induction rows with
  | nil => intro k; exact ⟨rfl, rfl⟩
  | cons row rows ih =>
      intro k
      obtain ⟨ihd, ihe⟩ := ih (k + 1)
      constructor
      · simp only [toStructRows, List.enumFrom_cons, List.filter_cons]
        by_cases hok : (toStructRow t headers row k).2.isEmpty
        · have hlen : (toStructRow t headers row k).2.length = 0 := by
            simpa [List.isEmpty_iff_length_eq_zero] using hok
          simp [hok, hlen, ihd]
        · have hlen : ¬(toStructRow t headers row k).2.length = 0 := by
            simp only [List.isEmpty_iff_length_eq_zero] at hok
            exact hok
          simp [hok, hlen, ihd]
      · simp only [toStructRows, List.enumFrom_cons, List.flatMap_cons]
        rw [ihe]

/-- C3: batch import is all-or-nothing per row while error-complete: a
row's reconstructed record appears in the successful-records sequence
exactly when that row recorded zero errors (the filter), every error any
row produced appears in the overall error sequence (the flatMap covers
every row, so processing continues after failures), and successful records
keep the input row order (filter and map preserve order). -/
theorem toStruct_all_or_nothing_per_row (t : GoType) (ed : ExcelData) :
    (toStruct t ed).data
      = ((ed.rows.enum.filter
            (fun p => (toStructRow t ed.headers p.2 p.1).2.isEmpty)).map
          (fun p => (toStructRow t ed.headers p.2 p.1).1))
    ∧ (toStruct t ed).errors
      = ed.rows.enum.flatMap (fun p => (toStructRow t ed.headers p.2 p.1).2) := by
  have h := toStructRows_spec t ed.headers ed.rows 0
  simpa [toStruct, List.enum] using h

/-- Row filter applied by `FromStruct`'s loop: a flattened row survives
exactly when its length matches the derived header count (`AddRow`'s
rejection is otherwise discarded). -/
def keptRow (t : GoType) (v : GoVal) : Option (List GoVal) :=
  match getStructValues t v with
  | .ok row => if row.length = (getStructHeaders t).length then some row else none
  | .error _ => none

/-- The item loop of `FromStruct`, characterised: when every instance
flattens successfully, the loop succeeds and appends exactly the rows whose
length matches the header count. -/
theorem fromStructRows_spec (t : GoType) :
    ∀ (data : List GoVal) (ed0 : ExcelData),
      ed0.headers = getStructHeaders t →
      (∀ v ∈ data, ∃ row, getStructValues t v = .ok row) →
      fromStructRows t data ed0
        = .ok ⟨getStructHeaders t, ed0.rows ++ data.filterMap (keptRow t)⟩ := by
  intro data
  induction data with
  | nil =>
      intro ed0 hh _
      cases ed0 with
      | mk headers rows => simp only [fromStructRows, List.filterMap_nil, List.append_nil]
                           simp only at hh
                           rw [hh]
  | cons v rest ih =>
      intro ed0 hh hok
      obtain ⟨row, hrow⟩ := hok v (List.mem_cons_self v rest)
      simp only [fromStructRows, hrow, Except.bind, Bind.bind]
      by_cases hlen : row.length = ed0.headers.length
      · have haddr : (addRow ed0 row).1 = { ed0 with rows := ed0.rows ++ [row] } := by
          simp [addRow, hlen]
        rw [haddr]
        rw [ih { ed0 with rows := ed0.rows ++ [row] } hh
          (fun w hw => hok w (List.mem_cons_of_mem v hw))]
        have hkept : keptRow t v = some row := by
          simp [keptRow, hrow, hh ▸ hlen]
        simp [hkept]
      · have haddr : (addRow ed0 row).1 = ed0 := by
          simp [addRow, hlen]
        rw [haddr]
        rw [ih ed0 hh (fun w hw => hok w (List.mem_cons_of_mem v hw))]
        have hkept : keptRow t v = none := by
          simp only [keptRow, hrow]
          rw [if_neg (by rw [← hh]; exact hlen)]
        simp [hkept]

/-- C2 as amended: when some instance's flattened value sequence has a
length different from the derived headers' length, `FromStruct` does not
fail: `AddRow` rejects the row but `FromStruct` discards that error
(excel.go line 203), returning a successful Tabular Container that silently
omits that instance's row — exactly the rows whose flattened length matches
the header count are kept, in order. -/
theorem fromStruct_silently_drops_mismatched_rows (t : GoType) (data : List GoVal)
    (hne : data ≠ [])
    (hok : ∀ v ∈ data, ∃ row, getStructValues t v = .ok row) :
    fromStruct t data
      = .ok ⟨getStructHeaders t, data.filterMap (keptRow t)⟩ := by
  unfold fromStruct
  rw [if_neg (by simpa using hne)]
  have h := fromStructRows_spec t data (newExcelData (getStructHeaders t)) rfl hok
  simpa [newExcelData] using h

/-- Witness for the amended C2: the collection `[nilDemoGood, nilDemoV]`
exports successfully, but the container keeps only `nilDemoGood`'s row —
`nilDemoV`'s two-value row is dropped against the three headers. -/
theorem fromStruct_silently_drops_mismatched_rows_witness :
    fromStruct nilDemoT [nilDemoGood, nilDemoV]
      = .ok ⟨getStructHeaders nilDemoT, [nilDemoGood, nilDemoV].filterMap (keptRow nilDemoT)⟩ :=
  fromStruct_silently_drops_mismatched_rows nilDemoT [nilDemoGood, nilDemoV]
    (by simp)
    (by
      intro v hv
      simp only [List.mem_cons, List.mem_singleton] at hv
      cases hv with
      | inl h => exact ⟨[.str "B", .str "s", .str "c"], by rw [h]; rfl⟩
      | inr h =>
          cases h with
          | inl h' => exact ⟨[.str "A", .str ""], by rw [h']; rfl⟩
          | inr h' => exact absurd h' (by simp))

/-- C2 counterexample: the instance `nilDemoV` flattens to 2 values against
3 headers, yet the whole export call succeeds — returning a container from
which `nilDemoV`'s row has been silently omitted (only `nilDemoGood`'s row
is present) instead of failing with an error. -/
theorem fromStruct_succeeds_despite_mismatch :
    fromStruct nilDemoT [nilDemoGood, nilDemoV]
      = .ok ⟨["Name", "Addr Street", "Addr City"], [[.str "B", .str "s", .str "c"]]⟩
    ∧ getStructValues nilDemoT nilDemoV = .ok [.str "A", .str ""]
    ∧ (getStructHeaders nilDemoT).length = 3
    ∧ wellTyped nilDemoT nilDemoV = true :=
  ⟨rfl, rfl, rfl, rfl⟩

mutual

/-- The length of the derived header sequence is `headerCount`, for every
accumulated path. -/
theorem headersLen : ∀ (t : GoType) (p : String),
    (getNestedHeaders t p).length = headerCount t
  | .ptr .timeT, _ => rfl
  | .ptr (.strukt fs), p => by
      simp only [getNestedHeaders, headerCount]
      exact headersFieldsLen fs p
  | .timeT, _ => rfl
  | .strukt fs, p => by
      simp only [getNestedHeaders, headerCount]
      exact headersFieldsLen fs p
  | .str, _ => rfl
  | .int, _ => rfl
  | .uint, _ => rfl
  | .bool, _ => rfl
  | .ptr .str, _ => rfl
  | .ptr .int, _ => rfl
  | .ptr .uint, _ => rfl
  | .ptr .bool, _ => rfl
  | .ptr (.ptr _), _ => rfl
  | .ptr (.slice _), _ => rfl
  | .slice _, _ => rfl

/-- The length of the field loop's header sequence is
`headerCountFields`. -/
theorem headersFieldsLen : ∀ (fs : FieldList) (p : String),
    (headersFields fs p).length = headerCountFields fs
  | .nil, _ => rfl
  | .cons name false ft rest, p => by
      have hrest := headersFieldsLen rest p
      cases ft with
      | ptr pe =>
          cases pe with
          | slice se => cases se <;> simp [headersFields, headerCountFields, hrest]
          | _ => simp [headersFields, headerCountFields, hrest]
      | slice se => cases se <;> simp [headersFields, headerCountFields, hrest]
      | _ => simp [headersFields, headerCountFields, hrest]
  | .cons name true ft rest, p => by
      have hrest := headersFieldsLen rest p
      cases ft with
      | timeT => simp [headersFields, headerCountFields, hrest] <;> try omega
      | strukt fs => simp [headersFields, headerCountFields, hrest, headersFieldsLen fs] <;> try omega
      | ptr pe =>
          cases pe with
          | timeT => simp [headersFields, headerCountFields, hrest] <;> try omega
          | strukt fs => simp [headersFields, headerCountFields, hrest, headersFieldsLen fs] <;> try omega
          | slice se =>
              cases se with
              | ptr te2 => simp [headersFields, headerCountFields, hrest, headersLen te2] <;> try omega
              | str => simp [headersFields, headerCountFields, hrest, headersLen GoType.str] <;> try omega
              | int => simp [headersFields, headerCountFields, hrest, headersLen GoType.int] <;> try omega
              | uint => simp [headersFields, headerCountFields, hrest, headersLen GoType.uint] <;> try omega
              | bool => simp [headersFields, headerCountFields, hrest, headersLen GoType.bool] <;> try omega
              | timeT => simp [headersFields, headerCountFields, hrest, headersLen GoType.timeT] <;> try omega
              | slice e => simp [headersFields, headerCountFields, hrest, headersLen (GoType.slice e)] <;> try omega
              | strukt fs => simp [headersFields, headerCountFields, hrest, headersLen (GoType.strukt fs)] <;> try omega
          | str => simp [headersFields, headerCountFields, hrest] <;> try omega
          | int => simp [headersFields, headerCountFields, hrest] <;> try omega
          | uint => simp [headersFields, headerCountFields, hrest] <;> try omega
          | bool => simp [headersFields, headerCountFields, hrest] <;> try omega
          | ptr pe2 => simp [headersFields, headerCountFields, hrest] <;> try omega
      | slice se =>
          cases se with
          | ptr te2 => simp [headersFields, headerCountFields, hrest, headersLen te2] <;> try omega
          | str => simp [headersFields, headerCountFields, hrest, headersLen GoType.str] <;> try omega
          | int => simp [headersFields, headerCountFields, hrest, headersLen GoType.int] <;> try omega
          | uint => simp [headersFields, headerCountFields, hrest, headersLen GoType.uint] <;> try omega
          | bool => simp [headersFields, headerCountFields, hrest, headersLen GoType.bool] <;> try omega
          | timeT => simp [headersFields, headerCountFields, hrest, headersLen GoType.timeT] <;> try omega
          | slice e => simp [headersFields, headerCountFields, hrest, headersLen (GoType.slice e)] <;> try omega
          | strukt fs => simp [headersFields, headerCountFields, hrest, headersLen (GoType.strukt fs)] <;> try omega
      | str => simp [headersFields, headerCountFields, hrest] <;> try omega
      | int => simp [headersFields, headerCountFields, hrest] <;> try omega
      | uint => simp [headersFields, headerCountFields, hrest] <;> try omega
      | bool => simp [headersFields, headerCountFields, hrest] <;> try omega

end

mutual

/-- On well-typed values the Value Flattener always succeeds, and the
length of its output is `valCount`. -/
theorem valuesLen : ∀ (t : GoType) (v : GoVal), wellTyped t v = true →
    ∃ out, getNestedValues t v = .ok out ∧ out.length = valCount t v
  | .ptr pe, .nilp, _ => by
      cases pe <;> exact ⟨[.str ""], rfl, rfl⟩
  | .ptr .timeT, .ptr w, h => by
      cases w <;> simp [wellTyped] at h
      exact ⟨[.str _], rfl, rfl⟩
  | .ptr (.strukt fs), .ptr w, h => by
      cases w <;> simp [wellTyped] at h
      obtain ⟨out, h1, h2⟩ := valuesFieldsLen fs _ (by simpa [wellTyped] using h)
      exact ⟨out, by simpa [getNestedValues] using h1, by simpa [valCount] using h2⟩
  | .ptr (.slice et), .ptr w, h => by
      cases w <;> simp [wellTyped] at h
      obtain ⟨out, h1, h2⟩ := sliceValuesLen et _ (by simpa [wellTyped] using h)
      exact ⟨out, by simpa [getNestedValues] using h1, by simpa [valCount] using h2⟩
  | .ptr .str, .ptr w, _ => ⟨[w], rfl, rfl⟩
  | .ptr .int, .ptr w, _ => ⟨[w], rfl, rfl⟩
  | .ptr .uint, .ptr w, _ => ⟨[w], rfl, rfl⟩
  | .ptr .bool, .ptr w, _ => ⟨[w], rfl, rfl⟩
  | .ptr (.ptr _), .ptr w, _ => ⟨[w], rfl, rfl⟩
  | .ptr pe, .str _, h => by cases pe <;> simp [wellTyped] at h
  | .ptr pe, .int _, h => by cases pe <;> simp [wellTyped] at h
  | .ptr pe, .uint _, h => by cases pe <;> simp [wellTyped] at h
  | .ptr pe, .bool _, h => by cases pe <;> simp [wellTyped] at h
  | .ptr pe, .time _, h => by cases pe <;> simp [wellTyped] at h
  | .ptr pe, .slice _, h => by cases pe <;> simp [wellTyped] at h
  | .ptr pe, .strukt _, h => by cases pe <;> simp [wellTyped] at h
  | .timeT, w, h => by
      cases w <;> simp [wellTyped] at h
      exact ⟨[.str _], rfl, rfl⟩
  | .strukt fs, .strukt ws, h => by
      simp only [wellTyped] at h
      obtain ⟨out, h1, h2⟩ := valuesFieldsLen fs ws h
      exact ⟨out, by simpa [getNestedValues] using h1, by simpa [valCount] using h2⟩
  | .strukt _, .str _, h => by simp [wellTyped] at h
  | .strukt _, .int _, h => by simp [wellTyped] at h
  | .strukt _, .uint _, h => by simp [wellTyped] at h
  | .strukt _, .bool _, h => by simp [wellTyped] at h
  | .strukt _, .time _, h => by simp [wellTyped] at h
  | .strukt _, .nilp, h => by simp [wellTyped] at h
  | .strukt _, .ptr _, h => by simp [wellTyped] at h
  | .strukt _, .slice _, h => by simp [wellTyped] at h
  | .slice et, .slice ws, h => by
      simp only [wellTyped] at h
      obtain ⟨out, h1, h2⟩ := sliceValuesLen et ws h
      exact ⟨out, by simpa [getNestedValues] using h1, by simpa [valCount] using h2⟩
  | .slice _, .str _, h => by simp [wellTyped] at h
  | .slice _, .int _, h => by simp [wellTyped] at h
  | .slice _, .uint _, h => by simp [wellTyped] at h
  | .slice _, .bool _, h => by simp [wellTyped] at h
  | .slice _, .time _, h => by simp [wellTyped] at h
  | .slice _, .nilp, h => by simp [wellTyped] at h
  | .slice _, .ptr _, h => by simp [wellTyped] at h
  | .slice _, .strukt _, h => by simp [wellTyped] at h
  | .str, v, h => by
      cases v <;> simp [wellTyped] at h
      exact ⟨[.str _], rfl, rfl⟩
  | .int, v, h => by
      cases v <;> simp [wellTyped] at h
      exact ⟨[.int _], rfl, rfl⟩
  | .uint, v, h => by
      cases v <;> simp [wellTyped] at h
      exact ⟨[.uint _], rfl, rfl⟩
  | .bool, v, h => by
      cases v <;> simp [wellTyped] at h
      exact ⟨[.bool _], rfl, rfl⟩

/-- Field-loop counterpart of `valuesLen`. -/
theorem valuesFieldsLen : ∀ (fs : FieldList) (vs : List GoVal),
    wellTypedFields fs vs = true →
    ∃ out, getNestedValuesFields fs vs = .ok out ∧ out.length = fieldsValCount fs vs
  | .nil, vs, _ => ⟨[], rfl, rfl⟩
  | .cons n e ft rest, [], h => by simp [wellTypedFields] at h
  | .cons n false ft rest, v :: vs, h => by
      simp only [wellTypedFields, Bool.and_eq_true] at h
      obtain ⟨out, h1, h2⟩ := valuesFieldsLen rest vs h.2
      refine ⟨out, ?_, ?_⟩
      · cases ft <;> cases v <;> simpa [getNestedValuesFields] using h1
      · cases ft <;> cases v <;> simp [fieldsValCount, h2]
  | .cons n true ft rest, v :: vs, h => by
      simp only [wellTypedFields, Bool.and_eq_true] at h
      obtain ⟨hv, hrest⟩ := h
      obtain ⟨tl, ht1, ht2⟩ := valuesFieldsLen rest vs hrest
      cases ft with
      | timeT =>
          cases v with
          | time s =>
              refine ⟨.str s :: tl, ?_, ?_⟩
              · simp [getNestedValuesFields, timeConv1, Bind.bind, Except.bind, pure,
                  Except.pure, ht1]
              · simp [fieldsValCount, ht2]
                try omega
          | str s => simp [wellTyped] at hv
          | int m => simp [wellTyped] at hv
          | uint m => simp [wellTyped] at hv
          | bool b => simp [wellTyped] at hv
          | nilp => simp [wellTyped] at hv
          | ptr w => simp [wellTyped] at hv
          | slice ws => simp [wellTyped] at hv
          | strukt ws => simp [wellTyped] at hv
      | ptr pe =>
          cases v with
          | nilp =>
              refine ⟨.str "" :: tl, ?_, ?_⟩
              · simp [getNestedValuesFields, Bind.bind, Except.bind, pure, Except.pure, ht1]
              · simp [fieldsValCount, ht2]
                try omega
          | ptr w =>
              have hv' : wellTyped pe w = true := by simpa [wellTyped] using hv
              obtain ⟨hd, hh1, hh2⟩ := valuesLen pe w hv'
              refine ⟨hd ++ tl, ?_, ?_⟩
              · simp [getNestedValuesFields, Bind.bind, Except.bind, pure, Except.pure,
                  hh1, ht1]
              · simp [fieldsValCount, hh2, ht2]
                try omega
          | str s => simp [wellTyped] at hv
          | int m => simp [wellTyped] at hv
          | uint m => simp [wellTyped] at hv
          | bool b => simp [wellTyped] at hv
          | time s => simp [wellTyped] at hv
          | slice ws => simp [wellTyped] at hv
          | strukt ws => simp [wellTyped] at hv
      | strukt fs2 =>
          cases v with
          | strukt ws =>
              have hv' : wellTypedFields fs2 ws = true := by simpa [wellTyped] using hv
              obtain ⟨hd, hh1, hh2⟩ := valuesFieldsLen fs2 ws hv'
              refine ⟨hd ++ tl, ?_, ?_⟩
              · simp [getNestedValuesFields, Bind.bind, Except.bind, pure, Except.pure,
                  hh1, ht1]
              · simp [fieldsValCount, hh2, ht2]
                try omega
          | str s => simp [wellTyped] at hv
          | int m => simp [wellTyped] at hv
          | uint m => simp [wellTyped] at hv
          | bool b => simp [wellTyped] at hv
          | time s => simp [wellTyped] at hv
          | nilp => simp [wellTyped] at hv
          | ptr w => simp [wellTyped] at hv
          | slice ws => simp [wellTyped] at hv
      | slice et =>
          cases v with
          | slice ws =>
              have hv' : ws.all (fun x => wellTyped et x) = true := by
                simpa [wellTyped] using hv
              obtain ⟨hd, hh1, hh2⟩ := sliceValuesLen et ws hv'
              refine ⟨hd ++ tl, ?_, ?_⟩
              · simp [getNestedValuesFields, Bind.bind, Except.bind, pure, Except.pure,
                  hh1, ht1]
              · simp [fieldsValCount, hh2, ht2]
                try omega
          | str s => simp [wellTyped] at hv
          | int m => simp [wellTyped] at hv
          | uint m => simp [wellTyped] at hv
          | bool b => simp [wellTyped] at hv
          | time s => simp [wellTyped] at hv
          | nilp => simp [wellTyped] at hv
          | ptr w => simp [wellTyped] at hv
          | strukt ws => simp [wellTyped] at hv
      | str =>
          cases v with
          | str s =>
              refine ⟨.str s :: tl, ?_, ?_⟩
              · simp [getNestedValuesFields, Bind.bind, Except.bind, pure, Except.pure, ht1]
              · simp [fieldsValCount, ht2]
                try omega
          | int m => simp [wellTyped] at hv
          | uint m => simp [wellTyped] at hv
          | bool b => simp [wellTyped] at hv
          | time s2 => simp [wellTyped] at hv
          | nilp => simp [wellTyped] at hv
          | ptr w => simp [wellTyped] at hv
          | slice ws => simp [wellTyped] at hv
          | strukt ws => simp [wellTyped] at hv
      | int =>
          cases v with
          | int m =>
              refine ⟨.int m :: tl, ?_, ?_⟩
              · simp [getNestedValuesFields, Bind.bind, Except.bind, pure, Except.pure, ht1]
              · simp [fieldsValCount, ht2]
                try omega
          | str s => simp [wellTyped] at hv
          | uint m => simp [wellTyped] at hv
          | bool b => simp [wellTyped] at hv
          | time s2 => simp [wellTyped] at hv
          | nilp => simp [wellTyped] at hv
          | ptr w => simp [wellTyped] at hv
          | slice ws => simp [wellTyped] at hv
          | strukt ws => simp [wellTyped] at hv
      | uint =>
          cases v with
          | uint m =>
              refine ⟨.uint m :: tl, ?_, ?_⟩
              · simp [getNestedValuesFields, Bind.bind, Except.bind, pure, Except.pure, ht1]
              · simp [fieldsValCount, ht2]
                try omega
          | str s => simp [wellTyped] at hv
          | int m => simp [wellTyped] at hv
          | bool b => simp [wellTyped] at hv
          | time s2 => simp [wellTyped] at hv
          | nilp => simp [wellTyped] at hv
          | ptr w => simp [wellTyped] at hv
          | slice ws => simp [wellTyped] at hv
          | strukt ws => simp [wellTyped] at hv
      | bool =>
          cases v with
          | bool b =>
              refine ⟨.bool b :: tl, ?_, ?_⟩
              · simp [getNestedValuesFields, Bind.bind, Except.bind, pure, Except.pure, ht1]
              · simp [fieldsValCount, ht2]
                try omega
          | str s => simp [wellTyped] at hv
          | int m => simp [wellTyped] at hv
          | uint m => simp [wellTyped] at hv
          | time s2 => simp [wellTyped] at hv
          | nilp => simp [wellTyped] at hv
          | ptr w => simp [wellTyped] at hv
          | slice ws => simp [wellTyped] at hv
          | strukt ws => simp [wellTyped] at hv

/-- `getFirstSliceValue` counterpart of `valuesLen`. -/
theorem sliceValuesLen : ∀ (et : GoType) (vs : List GoVal),
    vs.all (fun v => wellTyped et v) = true →
    ∃ out, getFirstSliceValue et vs = .ok out ∧ out.length = sliceValCount et vs
  | et, [], _ => by
      cases et with
      | ptr pe => cases pe <;> exact ⟨[.str ""], rfl, rfl⟩
      | _ => exact ⟨[.str ""], rfl, rfl⟩
  | .ptr pe, .nilp :: tl, _ => by
      cases pe <;> exact ⟨[.str ""], rfl, rfl⟩
  | .ptr (.strukt fs), .ptr w :: tl, h => by
      simp only [List.all_cons, Bool.and_eq_true] at h
      have hv := h.1
      cases w <;> simp [wellTyped] at hv
      obtain ⟨flat, h1, h2⟩ := valuesFieldsLen fs _ (by simpa [wellTyped] using hv)
      refine ⟨List.replicate flat.length (.str ""), ?_, ?_⟩
      · simp [getFirstSliceValue, h1]
      · simp [sliceValCount, h2]
  | .ptr .timeT, .ptr w :: tl, h => by
      simp only [List.all_cons, Bool.and_eq_true] at h
      have hv := h.1
      cases w <;> simp [wellTyped] at hv
      exact ⟨[.str ""], by simp [getFirstSliceValue, timeConv1], rfl⟩
  | .ptr .str, .ptr w :: tl, _ => ⟨[.str ""], rfl, rfl⟩
  | .ptr .int, .ptr w :: tl, _ => ⟨[.str ""], rfl, rfl⟩
  | .ptr .uint, .ptr w :: tl, _ => ⟨[.str ""], rfl, rfl⟩
  | .ptr .bool, .ptr w :: tl, _ => ⟨[.str ""], rfl, rfl⟩
  | .ptr (.ptr _), .ptr w :: tl, _ => ⟨[.str ""], rfl, rfl⟩
  | .ptr (.slice _), .ptr w :: tl, _ => ⟨[.str ""], rfl, rfl⟩
  | .ptr pe, .str _ :: tl, h => by cases pe <;> simp [wellTyped] at h
  | .ptr pe, .int _ :: tl, h => by cases pe <;> simp [wellTyped] at h
  | .ptr pe, .uint _ :: tl, h => by cases pe <;> simp [wellTyped] at h
  | .ptr pe, .bool _ :: tl, h => by cases pe <;> simp [wellTyped] at h
  | .ptr pe, .time _ :: tl, h => by cases pe <;> simp [wellTyped] at h
  | .ptr pe, .slice _ :: tl, h => by cases pe <;> simp [wellTyped] at h
  | .ptr pe, .strukt _ :: tl, h => by cases pe <;> simp [wellTyped] at h
  | .strukt fs, .strukt ws :: tl, h => by
      simp only [List.all_cons, Bool.and_eq_true, wellTyped] at h
      obtain ⟨flat, h1, h2⟩ := valuesFieldsLen fs ws h.1
      refine ⟨List.replicate flat.length (.str ""), ?_, ?_⟩
      · simp [getFirstSliceValue, h1]
      · simp [sliceValCount, h2]
  | .strukt _, .str _ :: tl, h => by simp [wellTyped] at h
  | .strukt _, .int _ :: tl, h => by simp [wellTyped] at h
  | .strukt _, .uint _ :: tl, h => by simp [wellTyped] at h
  | .strukt _, .bool _ :: tl, h => by simp [wellTyped] at h
  | .strukt _, .time _ :: tl, h => by simp [wellTyped] at h
  | .strukt _, .nilp :: tl, h => by simp [wellTyped] at h
  | .strukt _, .ptr _ :: tl, h => by simp [wellTyped] at h
  | .strukt _, .slice _ :: tl, h => by simp [wellTyped] at h
  | .timeT, w :: tl, h => by
      simp only [List.all_cons, Bool.and_eq_true] at h
      have hv := h.1
      cases w <;> simp [wellTyped] at hv
      exact ⟨[.str ""], by simp [getFirstSliceValue, timeConv1], rfl⟩
  | .str, v :: tl, _ => ⟨[.str ""], rfl, rfl⟩
  | .int, v :: tl, _ => ⟨[.str ""], rfl, rfl⟩
  | .uint, v :: tl, _ => ⟨[.str ""], rfl, rfl⟩
  | .bool, v :: tl, _ => ⟨[.str ""], rfl, rfl⟩
  | .slice _, v :: tl, _ => ⟨[.str ""], rfl, rfl⟩

end

/-- C1 counterexample: for the record type with fields `Name string` and
`Addr *Address` (Address having two fields) and the well-typed instance
whose `Addr` is nil, the Header Deriver emits 3 headers but the Value
Flattener emits only 2 values — the nil pointer contributes a single empty
string against the pointee's two columns, so the claimed alignment fails. -/
theorem headers_values_misaligned_at_nil_pointer :
    wellTyped nilDemoT nilDemoV = true
    ∧ getStructValues nilDemoT nilDemoV = .ok [.str "A", .str ""]
    ∧ (getStructHeaders nilDemoT).length = 3
    ∧ [GoVal.str "A", GoVal.str ""].length ≠ (getStructHeaders nilDemoT).length :=
  ⟨rfl, rfl, rfl, by decide⟩

/-- C1 as amended: for every record type and well-typed instance,
flattening succeeds, but the length of the value sequence is `valCount`
while the header sequence's length is `headerCount`, and these need not
coincide: alignment holds precisely when they agree.  A nil pointer or an
empty collection contributes exactly one value regardless of how many
columns the pointee or element type spans, so alignment fails e.g. at a nil
pointer to a multi-field struct. -/
theorem header_value_alignment_iff_counts_agree (t : GoType) (v : GoVal)
    (h : wellTyped t v = true) :
    ∃ out, getStructValues t v = .ok out
      ∧ (out.length = (getStructHeaders t).length
          ↔ valCount t v = headerCount t) := by
  obtain ⟨out, h1, h2⟩ := valuesLen t v h
  refine ⟨out, h1, ?_⟩
  rw [h2, getStructHeaders, headersLen t ""]

/-- Witness for the amended C1 at the nil-pointer instance. -/
theorem header_value_alignment_iff_counts_agree_witness :
    ∃ out, getStructValues nilDemoT nilDemoV = Except.ok out
      ∧ (out.length = (getStructHeaders nilDemoT).length
          ↔ valCount nilDemoT nilDemoV = headerCount nilDemoT) :=
  header_value_alignment_iff_counts_agree nilDemoT nilDemoV rfl

/-- C6: in the field loop of the Value Flattener, a nil pointer field
contributes exactly the single empty string (the absent-value marker this
implementation uses uniformly), and the nil pointer never causes an error:
if the fields before and after it flatten successfully, the whole struct
flattens successfully with the empty string in the nil field's position. -/
theorem nil_pointer_field_flattens_to_default :
    ∀ (fs1 : FieldList) (vs1 : List GoVal) (fs2 : FieldList) (vs2 : List GoVal)
      (n : String) (te : GoType) (out1 out2 : List GoVal),
      fs1.lenF = vs1.length →
      getNestedValuesFields fs1 vs1 = .ok out1 →
      getNestedValuesFields fs2 vs2 = .ok out2 →
      getNestedValuesFields (fs1.appendF (.cons n true (.ptr te) fs2))
          (vs1 ++ .nilp :: vs2)
        = .ok (out1 ++ .str "" :: out2)
  | .nil, vs1, fs2, vs2, n, te, out1, out2, h, h1, h2 => by
      have hv : vs1 = [] := List.length_eq_zero.mp (by simpa [FieldList.lenF] using h.symm)
      subst hv
      have ho : out1 = [] := by
        simpa [getNestedValuesFields] using h1
      subst ho
      simp [FieldList.appendF, getNestedValuesFields, Bind.bind, Except.bind, pure,
        Except.pure, h2]
  | .cons n' e' ft' rest', [], fs2, vs2, n, te, out1, out2, h, h1, h2 => by
      simp only [FieldList.lenF, List.length_nil] at h
      omega
  | .cons n' false ft' rest', v :: vs1', fs2, vs2, n, te, out1, out2, h, h1, h2 => by
      have h' : rest'.lenF = vs1'.length := by
        simp only [FieldList.lenF, List.length_cons] at h
        omega
      have h1' : getNestedValuesFields rest' vs1' = .ok out1 := by
        cases ft' <;> cases v <;> simpa [getNestedValuesFields] using h1
      have hih := nil_pointer_field_flattens_to_default rest' vs1' fs2 vs2 n te out1 out2
        h' h1' h2
      cases ft' <;> cases v <;>
        simpa [getNestedValuesFields, FieldList.appendF] using hih
  | .cons n' true ft' rest', v :: vs1', fs2, vs2, n, te, out1, out2, h, h1, h2 => by
      have h' : rest'.lenF = vs1'.length := by
        simp only [FieldList.lenF, List.length_cons] at h
        omega
      cases ft' with
      | timeT =>
          cases v with
          | time s =>
              cases htl : getNestedValuesFields rest' vs1' with
              | error e =>
                  simp [getNestedValuesFields, timeConv1, Bind.bind, Except.bind, pure, Except.pure, Functor.map, Except.map, Functor.map, Except.map, htl] at h1
              | ok tl =>
                  simp [getNestedValuesFields, timeConv1, Bind.bind, Except.bind, pure, Except.pure, Functor.map, Except.map, Functor.map, Except.map, htl, Except.ok.injEq] at h1
                  subst h1
                  have hih := nil_pointer_field_flattens_to_default rest' vs1' fs2 vs2 n te
                    tl out2 h' htl h2
                  simp [getNestedValuesFields, timeConv1, FieldList.appendF, Bind.bind, Except.bind, pure, Except.pure, Functor.map, Except.map, hih]
          | str s => simp [getNestedValuesFields, timeConv1] at h1
          | int m => simp [getNestedValuesFields, timeConv1] at h1
          | uint m => simp [getNestedValuesFields, timeConv1] at h1
          | bool b => simp [getNestedValuesFields, timeConv1] at h1
          | nilp => simp [getNestedValuesFields, timeConv1] at h1
          | ptr w => simp [getNestedValuesFields, timeConv1] at h1
          | slice ws => simp [getNestedValuesFields, timeConv1] at h1
          | strukt ws => simp [getNestedValuesFields, timeConv1] at h1
      | ptr pe =>
          cases v with
          | nilp =>
              cases htl : getNestedValuesFields rest' vs1' with
              | error e =>
                  simp [getNestedValuesFields, Bind.bind, Except.bind, pure, Except.pure, Functor.map, Except.map, Functor.map, Except.map, htl] at h1
              | ok tl =>
                  simp [getNestedValuesFields, Bind.bind, Except.bind, pure, Except.pure, Functor.map, Except.map, Functor.map, Except.map, htl, Except.ok.injEq] at h1
                  subst h1
                  have hih := nil_pointer_field_flattens_to_default rest' vs1' fs2 vs2 n te
                    tl out2 h' htl h2
                  simp [getNestedValuesFields, FieldList.appendF, Bind.bind, Except.bind, pure, Except.pure, Functor.map, Except.map, hih]
          | ptr w =>
              cases hhd : getNestedValues pe w with
              | error e =>
                  simp [getNestedValuesFields, Bind.bind, Except.bind, pure, Except.pure, Functor.map, Except.map, Functor.map, Except.map, hhd] at h1
              | ok hd =>
                  cases htl : getNestedValuesFields rest' vs1' with
                  | error e =>
                      simp [getNestedValuesFields, Bind.bind, Except.bind, pure,
                        Except.pure, hhd, htl] at h1
                  | ok tl =>
                      simp [getNestedValuesFields, Bind.bind, Except.bind, pure,
                        Except.pure, hhd, htl, Except.ok.injEq] at h1
                      subst h1
                      have hih := nil_pointer_field_flattens_to_default rest' vs1' fs2 vs2
                        n te tl out2 h' htl h2
                      simp [getNestedValuesFields, FieldList.appendF, Bind.bind, Except.bind, pure, Except.pure, Functor.map, Except.map, hhd, hih]
          | str s => simp [getNestedValuesFields, timeConv1] at h1
          | int m => simp [getNestedValuesFields, timeConv1] at h1
          | uint m => simp [getNestedValuesFields, timeConv1] at h1
          | bool b => simp [getNestedValuesFields, timeConv1] at h1
          | time s => simp [getNestedValuesFields, timeConv1] at h1
          | slice ws => simp [getNestedValuesFields, timeConv1] at h1
          | strukt ws => simp [getNestedValuesFields, timeConv1] at h1
      | strukt fs' =>
          cases v with
          | strukt ws =>
              cases hhd : getNestedValuesFields fs' ws with
              | error e =>
                  simp [getNestedValuesFields, Bind.bind, Except.bind, pure, Except.pure, Functor.map, Except.map, Functor.map, Except.map, hhd] at h1
              | ok hd =>
                  cases htl : getNestedValuesFields rest' vs1' with
                  | error e =>
                      simp [getNestedValuesFields, Bind.bind, Except.bind, pure,
                        Except.pure, hhd, htl] at h1
                  | ok tl =>
                      simp [getNestedValuesFields, Bind.bind, Except.bind, pure,
                        Except.pure, hhd, htl, Except.ok.injEq] at h1
                      subst h1
                      have hih := nil_pointer_field_flattens_to_default rest' vs1' fs2 vs2
                        n te tl out2 h' htl h2
                      simp [getNestedValuesFields, FieldList.appendF, Bind.bind, Except.bind, pure, Except.pure, Functor.map, Except.map, hhd, hih]
          | str s => simp [getNestedValuesFields, timeConv1] at h1
          | int m => simp [getNestedValuesFields, timeConv1] at h1
          | uint m => simp [getNestedValuesFields, timeConv1] at h1
          | bool b => simp [getNestedValuesFields, timeConv1] at h1
          | time s => simp [getNestedValuesFields, timeConv1] at h1
          | nilp => simp [getNestedValuesFields, timeConv1] at h1
          | ptr w => simp [getNestedValuesFields, timeConv1] at h1
          | slice ws => simp [getNestedValuesFields, timeConv1] at h1
      | slice et' =>
          cases v with
          | slice ws =>
              cases hhd : getFirstSliceValue et' ws with
              | error e =>
                  simp [getNestedValuesFields, Bind.bind, Except.bind, pure, Except.pure, Functor.map, Except.map, Functor.map, Except.map, hhd] at h1
              | ok hd =>
                  cases htl : getNestedValuesFields rest' vs1' with
                  | error e =>
                      simp [getNestedValuesFields, Bind.bind, Except.bind, pure,
                        Except.pure, hhd, htl] at h1
                  | ok tl =>
                      simp [getNestedValuesFields, Bind.bind, Except.bind, pure,
                        Except.pure, hhd, htl, Except.ok.injEq] at h1
                      subst h1
                      have hih := nil_pointer_field_flattens_to_default rest' vs1' fs2 vs2
                        n te tl out2 h' htl h2
                      simp [getNestedValuesFields, FieldList.appendF, Bind.bind, Except.bind, pure, Except.pure, Functor.map, Except.map, hhd, hih]
          | str s => simp [getNestedValuesFields, timeConv1] at h1
          | int m => simp [getNestedValuesFields, timeConv1] at h1
          | uint m => simp [getNestedValuesFields, timeConv1] at h1
          | bool b => simp [getNestedValuesFields, timeConv1] at h1
          | time s => simp [getNestedValuesFields, timeConv1] at h1
          | nilp => simp [getNestedValuesFields, timeConv1] at h1
          | ptr w => simp [getNestedValuesFields, timeConv1] at h1
          | strukt ws => simp [getNestedValuesFields, timeConv1] at h1
      | str =>
          cases htl : getNestedValuesFields rest' vs1' with
          | error e =>
              cases v <;>
                simp [getNestedValuesFields, Bind.bind, Except.bind, pure,
                  Except.pure, htl] at h1
          | ok tl =>
              have hih := nil_pointer_field_flattens_to_default rest' vs1' fs2 vs2 n te
                tl out2 h' htl h2
              cases v <;>
                (simp [getNestedValuesFields, Bind.bind, Except.bind, pure,
                  Except.pure, htl, Except.ok.injEq] at h1 <;>
                 subst h1 <;>
                 simp [getNestedValuesFields, FieldList.appendF, Bind.bind, Except.bind, pure, Except.pure, Functor.map, Except.map, hih])
      | int =>
          cases htl : getNestedValuesFields rest' vs1' with
          | error e =>
              cases v <;>
                simp [getNestedValuesFields, Bind.bind, Except.bind, pure,
                  Except.pure, htl] at h1
          | ok tl =>
              have hih := nil_pointer_field_flattens_to_default rest' vs1' fs2 vs2 n te
                tl out2 h' htl h2
              cases v <;>
                (simp [getNestedValuesFields, Bind.bind, Except.bind, pure,
                  Except.pure, htl, Except.ok.injEq] at h1 <;>
                 subst h1 <;>
                 simp [getNestedValuesFields, FieldList.appendF, Bind.bind, Except.bind, pure, Except.pure, Functor.map, Except.map, hih])
      | uint =>
          cases htl : getNestedValuesFields rest' vs1' with
          | error e =>
              cases v <;>
                simp [getNestedValuesFields, Bind.bind, Except.bind, pure,
                  Except.pure, htl] at h1
          | ok tl =>
              have hih := nil_pointer_field_flattens_to_default rest' vs1' fs2 vs2 n te
                tl out2 h' htl h2
              cases v <;>
                (simp [getNestedValuesFields, Bind.bind, Except.bind, pure,
                  Except.pure, htl, Except.ok.injEq] at h1 <;>
                 subst h1 <;>
                 simp [getNestedValuesFields, FieldList.appendF, Bind.bind, Except.bind, pure, Except.pure, Functor.map, Except.map, hih])
      | bool =>
          cases htl : getNestedValuesFields rest' vs1' with
          | error e =>
              cases v <;>
                simp [getNestedValuesFields, Bind.bind, Except.bind, pure,
                  Except.pure, htl] at h1
          | ok tl =>
              have hih := nil_pointer_field_flattens_to_default rest' vs1' fs2 vs2 n te
                tl out2 h' htl h2
              cases v <;>
                (simp [getNestedValuesFields, Bind.bind, Except.bind, pure,
                  Except.pure, htl, Except.ok.injEq] at h1 <;>
                 subst h1 <;>
                 simp [getNestedValuesFields, FieldList.appendF, Bind.bind, Except.bind, pure, Except.pure, Functor.map, Except.map, hih])

/-- Witness for C6 at a one-field prefix and a one-field suffix around the
nil `*Address`-like pointer field. -/
theorem nil_pointer_field_flattens_to_default_witness :
    getNestedValuesFields
        ((FieldList.cons "Name" true .str .nil).appendF
          (.cons "Addr" true (.ptr addressT) (.cons "Age" true .int .nil)))
        ([GoVal.str "A"] ++ .nilp :: [GoVal.int 7])
      = .ok ([GoVal.str "A"] ++ .str "" :: [GoVal.int 7]) :=
  nil_pointer_field_flattens_to_default
    (.cons "Name" true .str .nil) [GoVal.str "A"]
    (.cons "Age" true .int .nil) [GoVal.int 7]
    "Addr" addressT [GoVal.str "A"] [GoVal.int 7] rfl rfl rfl

/-- Scalar field kinds (string, signed/unsigned integer, boolean). -/
def scalarKind : GoType → Bool
  | .str => true
  | .int => true
  | .uint => true
  | .bool => true
  | _ => false

/-- A string containing a space character (header paths split on spaces, so
Go identifiers never contain one). -/
def hasSpaceChar (s : String) : Bool :=
  s.toList.any (fun c => c = ' ')

/-- Every field is exported, of scalar kind, and named by a space-free
identifier: the "simple record" shape (no nested structs, no collections,
no time fields). -/
def flatFieldsOk : FieldList → Bool
  | .nil => true
  | .cons n e t rest => e && scalarKind t && !hasSpaceChar n && flatFieldsOk rest

/-- The name does not occur among the fields. -/
def nameFresh (n : String) : FieldList → Bool
  | .nil => true
  | .cons m _ _ rest => !(m = n) && nameFresh n rest

/-- All field names are distinct (Go enforces this for struct types). -/
def distinctNamesF : FieldList → Bool
  | .nil => true
  | .cons n _ _ rest => nameFresh n rest && distinctNamesF rest

/-- A flat record type: a struct of distinct, exported, scalar fields. -/
def flatRecordT : GoType → Bool
  | .strukt fs => flatFieldsOk fs && distinctNamesF fs
  | _ => false

theorem splitOnSpaceAux_no_space :
    ∀ (cs acc : List Char), (∀ c ∈ cs, c ≠ ' ') →
      splitOnSpaceAux cs acc = [String.mk (acc.reverse ++ cs)]
  | [], acc, _ => by simp [splitOnSpaceAux]
  | c :: cs, acc, h => by
      have hc : c ≠ ' ' := h c (by simp)
      simp only [splitOnSpaceAux, if_neg hc]
      rw [splitOnSpaceAux_no_space cs (c :: acc) (fun d hd => h d (by simp [hd]))]
      simp

theorem splitOnSpace_no_space (s : String) (h : hasSpaceChar s = false) :
    splitOnSpace s = [s] := by
  unfold splitOnSpace
  have h' : ∀ c ∈ s.toList, c ≠ ' ' := by
    intro c hc heq
    have hany : s.toList.any (fun c => c = ' ') = true :=
      List.any_eq_true.mpr ⟨c, hc, by simp [heq]⟩
    rw [hasSpaceChar] at h
    rw [h] at hany
    exact Bool.false_ne_true hany
  rw [splitOnSpaceAux_no_space s.toList [] h']
  simp only [List.reverse_nil, List.nil_append]
  rfl

theorem digitsToNat_append :
    ∀ (ds1 ds2 : List Char) (acc : Nat),
      digitsToNat (ds1 ++ ds2) acc = digitsToNat ds2 (digitsToNat ds1 acc)
  | [], ds2, acc => rfl
  | c :: cs, ds2, acc => by
      simp only [List.cons_append, digitsToNat]
      exact digitsToNat_append cs ds2 _

theorem digitChar_isDigit (d : Nat) (h : d < 10) : (digitChar d).isDigit = true := by
  interval_cases d <;> decide

theorem digitChar_toNat (d : Nat) (h : d < 10) : (digitChar d).toNat = 48 + d := by
  interval_cases d <;> decide

theorem natDigitsCore_ne_nil (fuel n : Nat) (h : n < fuel) :
    natDigitsCore fuel n ≠ [] := by
  cases fuel with
  | zero => omega
  | succ f =>
      by_cases h10 : n < 10 <;> simp [natDigitsCore, h10]

theorem natDigitsCore_all_digit :
    ∀ (fuel n : Nat), n < fuel → ∀ c ∈ natDigitsCore fuel n, c.isDigit = true
  | 0, n, h => by omega
  | fuel + 1, n, h => by
      by_cases h10 : n < 10
      · simp only [natDigitsCore, if_pos h10, List.mem_singleton]
        rintro c rfl
        exact digitChar_isDigit n h10
      · simp only [natDigitsCore, if_neg h10, List.mem_append, List.mem_singleton]
        rintro c (hc | rfl)
        · exact natDigitsCore_all_digit fuel (n / 10) (by omega) c hc
        · exact digitChar_isDigit (n % 10) (Nat.mod_lt n (by omega))

theorem natDigitsCore_val :
    ∀ (fuel n : Nat), n < fuel → ∀ acc,
      digitsToNat (natDigitsCore fuel n) acc
        = acc * 10 ^ (natDigitsCore fuel n).length + n
  | 0, n, h => by omega
  | fuel + 1, n, h => by
      intro acc
      by_cases h10 : n < 10
      · simp only [natDigitsCore, if_pos h10, digitsToNat, List.length_singleton]
        rw [digitChar_toNat n h10]
        omega
      · have hdiv : n / 10 < fuel := by omega
        simp only [natDigitsCore, if_neg h10]
        rw [digitsToNat_append]
        simp only [digitsToNat]
        rw [natDigitsCore_val fuel (n / 10) hdiv acc]
        rw [digitChar_toNat (n % 10) (Nat.mod_lt n (by omega))]
        simp only [List.length_append, List.length_singleton]
        have hp : 10 ^ ((natDigitsCore fuel (n / 10)).length + 1)
            = 10 ^ (natDigitsCore fuel (n / 10)).length * 10 := by
          rw [pow_succ]
        rw [hp]
        have hmod : n % 10 + 10 * (n / 10) = n := Nat.mod_add_div n 10
        ring_nf
        omega

theorem natDigits_val (n : Nat) : digitsToNat (natDigits n) 0 = n := by
  unfold natDigits
  rw [natDigitsCore_val (n + 1) n (by omega) 0]
  simp

theorem natDigits_all_digit (n : Nat) : ∀ c ∈ natDigits n, c.isDigit = true :=
  natDigitsCore_all_digit (n + 1) n (by omega)

theorem natDigits_ne_nil (n : Nat) : natDigits n ≠ [] :=
  natDigitsCore_ne_nil (n + 1) n (by omega)

theorem toList_mk (cs : List Char) : (String.mk cs).toList = cs := rfl

theorem parseIntDigits_natDigits (neg : Bool) (m : Nat) (s : String)
    (h : ((if neg then -(m : Int) else (m : Int)) ≥ -(2 ^ 63))
       ∧ ((if neg then -(m : Int) else (m : Int)) < 2 ^ 63)) :
    parseIntDigits neg (natDigits m) s = .ok (if neg then -(m : Int) else (m : Int)) := by
  have hne : (natDigits m).isEmpty = false := by
    cases hnd : natDigits m with
    | nil => exact absurd hnd (natDigits_ne_nil m)
    | cons c cs => rfl
  have hall : ((natDigits m).all fun d => d.isDigit) = true := by
    simp only [List.all_eq_true]
    exact fun d hd => natDigits_all_digit m d hd
  unfold parseIntDigits
  rw [hne, hall]
  simp only [Bool.false_eq_true, Bool.not_true, false_or, if_false, reduceIte]
  rw [natDigits_val m]
  rw [if_pos ⟨h.1, h.2⟩]

theorem parseUintGo_render (n : Nat) (h : n < 2 ^ 64) :
    parseUintGo (render (.uint n)) = .ok n := by
  have hne : (natDigits n).isEmpty = false := by
    cases hnd : natDigits n with
    | nil => exact absurd hnd (natDigits_ne_nil n)
    | cons c cs => rfl
  have hall : ((natDigits n).all fun d => d.isDigit) = true := by
    simp only [List.all_eq_true]
    exact fun d hd => natDigits_all_digit n d hd
  unfold parseUintGo render
  rw [toList_mk, hne, hall]
  simp only [Bool.false_eq_true, Bool.not_true, false_or, if_false, reduceIte]
  rw [natDigits_val n]
  rw [if_pos h]

theorem parseIntGo_toList (s : String) (c : Char) (cs : List Char)
    (h : s.toList = c :: cs) :
    parseIntGo s = if c = '-' then parseIntDigits true cs s
      else if c = '+' then parseIntDigits false cs s
      else parseIntDigits false (c :: cs) s := by
  unfold parseIntGo
  rw [h]

theorem parseIntGo_render (n : Int) (h1 : -(2 ^ 63) ≤ n) (h2 : n < 2 ^ 63) :
    parseIntGo (render (.int n)) = .ok n := by
  obtain ⟨c, cs, hccs⟩ : ∃ c cs, natDigits n.natAbs = c :: cs := by
    cases hnd : natDigits n.natAbs with
    | nil => exact absurd hnd (natDigits_ne_nil n.natAbs)
    | cons c cs => exact ⟨c, cs, rfl⟩
  have hcd : c.isDigit = true := natDigits_all_digit n.natAbs c (by rw [hccs]; simp)
  by_cases hneg : n < 0
  · have hs : render (.int n) = "-" ++ String.mk (natDigits n.natAbs) := by
      simp [render, hneg]
    have htl : (render (.int n)).toList = '-' :: natDigits n.natAbs := by
      rw [hs]
      have hd := String.data_append "-" (String.mk (natDigits n.natAbs))
      simp only [String.toList, hd]
      rfl
    rw [parseIntGo_toList (render (.int n)) '-' (natDigits n.natAbs) htl]
    simp only [reduceIte]
    rw [parseIntDigits_natDigits true n.natAbs (render (.int n))
      (by simp only [reduceIte]; constructor <;> omega)]
    simp only [reduceIte]
    congr 1
    omega
  · have hs : render (.int n) = String.mk (natDigits n.natAbs) := by
      simp [render, hneg]
    have htl : (render (.int n)).toList = c :: cs := by
      rw [hs, toList_mk, hccs]
    have hcm1 : ¬(c = '-') := by
      intro heq
      subst heq
      simp [Char.isDigit] at hcd
    have hcm2 : ¬(c = '+') := by
      intro heq
      subst heq
      simp [Char.isDigit] at hcd
    rw [parseIntGo_toList (render (.int n)) c cs htl]
    rw [if_neg hcm1, if_neg hcm2, ← hccs]
    rw [parseIntDigits_natDigits false n.natAbs (render (.int n))
      (by constructor <;> omega)]
    simp only [Bool.false_eq_true, if_false]
    congr 1
    omega

theorem parseBoolGo_render (b : Bool) : parseBoolGo (render (.bool b)) = .ok b := by
  cases b <;> rfl

theorem setField_scalar_roundtrip (ft : GoType) (v : GoVal)
    (hs : scalarKind ft = true) (hw : wellTyped ft v = true) :
    setField true ft v = .ok v := by
  cases ft with
  | str =>
      cases v <;> simp [wellTyped] at hw
      rfl
  | int =>
      cases v with
      | int n =>
          simp only [wellTyped, Bool.and_eq_true, decide_eq_true_eq] at hw
          simp [setField, parseIntGo_render n hw.1 hw.2]
      | str s => simp [wellTyped] at hw
      | uint m => simp [wellTyped] at hw
      | bool b => simp [wellTyped] at hw
      | time s => simp [wellTyped] at hw
      | nilp => simp [wellTyped] at hw
      | ptr w => simp [wellTyped] at hw
      | slice ws => simp [wellTyped] at hw
      | strukt ws => simp [wellTyped] at hw
  | uint =>
      cases v with
      | uint n =>
          simp only [wellTyped, decide_eq_true_eq] at hw
          simp [setField, parseUintGo_render n hw]
      | str s => simp [wellTyped] at hw
      | int m => simp [wellTyped] at hw
      | bool b => simp [wellTyped] at hw
      | time s => simp [wellTyped] at hw
      | nilp => simp [wellTyped] at hw
      | ptr w => simp [wellTyped] at hw
      | slice ws => simp [wellTyped] at hw
      | strukt ws => simp [wellTyped] at hw
  | bool =>
      cases v <;> simp [wellTyped] at hw
      simp [setField, parseBoolGo_render]
  | timeT => simp [scalarKind] at hs
  | ptr pe => simp [scalarKind] at hs
  | slice et => simp [scalarKind] at hs
  | strukt fs => simp [scalarKind] at hs

theorem lenF_append :
    ∀ (a b : FieldList), (a.appendF b).lenF = a.lenF + b.lenF
  | .nil, b => by simp [FieldList.appendF, FieldList.lenF]
  | .cons n e t rest, b => by
      simp only [FieldList.appendF, FieldList.lenF, lenF_append rest b]
      omega

theorem appendF_assoc :
    ∀ (a b c : FieldList), (a.appendF b).appendF c = a.appendF (b.appendF c)
  | .nil, b, c => rfl
  | .cons n e t rest, b, c => by
      simp only [FieldList.appendF, appendF_assoc rest b c]

theorem names_append :
    ∀ (a b : FieldList), (a.appendF b).names = a.names ++ b.names
  | .nil, b => rfl
  | .cons n e t rest, b => by
      simp only [FieldList.appendF, FieldList.names, names_append rest b, List.cons_append]

theorem names_length :
    ∀ (fs : FieldList), fs.names.length = fs.lenF
  | .nil => rfl
  | .cons n e t rest => by
      simp only [FieldList.names, FieldList.lenF, List.length_cons, names_length rest]
      omega

theorem zeroFields_length :
    ∀ (fs : FieldList), (zeroFields fs).length = fs.lenF
  | .nil => rfl
  | .cons n e t rest => by
      simp only [zeroFields, FieldList.lenF, List.length_cons, zeroFields_length rest]
      omega

theorem wellTypedFields_length :
    ∀ (fs : FieldList) (vs : List GoVal), wellTypedFields fs vs = true →
      vs.length = fs.lenF
  | .nil, [], _ => rfl
  | .nil, v :: vs, h => by simp [wellTypedFields] at h
  | .cons n e t rest, [], h => by simp [wellTypedFields] at h
  | .cons n e t rest, v :: vs, h => by
      simp only [wellTypedFields, Bool.and_eq_true] at h
      simp only [List.length_cons, FieldList.lenF, wellTypedFields_length rest vs h.2]
      omega

theorem nameFresh_append (n : String) :
    ∀ (a b : FieldList),
      nameFresh n (a.appendF b) = (nameFresh n a && nameFresh n b)
  | .nil, b => by simp [FieldList.appendF, nameFresh]
  | .cons m e t rest, b => by
      simp only [FieldList.appendF, nameFresh, nameFresh_append n rest b]
      rw [Bool.and_assoc]

theorem distinct_append_head_fresh :
    ∀ (fs1 : FieldList) (n : String) (e : Bool) (t : GoType) (fs2 : FieldList),
      distinctNamesF (fs1.appendF (.cons n e t fs2)) = true →
      nameFresh n fs1 = true
  | .nil, n, e, t, fs2, _ => rfl
  | .cons m em tm rest, n, e, t, fs2, h => by
      simp only [FieldList.appendF, distinctNamesF, Bool.and_eq_true] at h
      have hm : nameFresh m (rest.appendF (.cons n e t fs2)) = true := h.1
      rw [nameFresh_append] at hm
      simp only [Bool.and_eq_true, nameFresh] at hm
      have hmn : (!decide (n = m)) = true := by
        have := hm.2.1
        simpa using this
      simp only [nameFresh, Bool.and_eq_true]
      refine ⟨?_, distinct_append_head_fresh rest n e t fs2 h.2⟩
      simp only [Bool.not_eq_eq_eq_not, Bool.not_true, decide_eq_false_iff_not] at hmn ⊢
      exact fun heq => hmn heq.symm

theorem distinct_append_tail :
    ∀ (fs1 : FieldList) (n : String) (e : Bool) (t : GoType) (fs2 : FieldList),
      distinctNamesF (fs1.appendF (.cons n e t fs2)) = true →
      distinctNamesF ((fs1.appendF (.cons n e t .nil)).appendF fs2) = true
  | .nil, n, e, t, fs2, h => by
      simp only [FieldList.appendF, distinctNamesF, Bool.and_eq_true,
        nameFresh] at h ⊢
      exact h
  | .cons m em tm rest, n, e, t, fs2, h => by
      simp only [FieldList.appendF, distinctNamesF, Bool.and_eq_true] at h ⊢
      refine ⟨?_, distinct_append_tail rest n e t fs2 h.2⟩
      have hm := h.1
      rw [nameFresh_append] at hm
      rw [nameFresh_append, nameFresh_append]
      simp only [Bool.and_eq_true, nameFresh] at hm ⊢
      exact ⟨⟨hm.1, ⟨hm.2.1, trivial⟩⟩, hm.2.2⟩

theorem flatFieldsOk_append_iff :
    ∀ (a b : FieldList),
      flatFieldsOk (a.appendF b) = (flatFieldsOk a && flatFieldsOk b)
  | .nil, b => by simp [FieldList.appendF, flatFieldsOk]
  | .cons m e t rest, b => by
      simp only [FieldList.appendF, flatFieldsOk, flatFieldsOk_append_iff rest b]
      simp [Bool.and_assoc]

theorem findField_append_fresh :
    ∀ (fs1 : FieldList) (gs : FieldList) (seg : String),
      nameFresh seg fs1 = true →
      findField (fs1.appendF gs) seg = findField gs seg
  | .nil, gs, seg, _ => rfl
  | .cons m e t rest, gs, seg, h => by
      simp only [nameFresh, Bool.and_eq_true] at h
      have hm : ¬(m = seg) := by
        have := h.1
        simpa using this
      simp only [FieldList.appendF, findField, if_neg hm]
      exact findField_append_fresh rest gs seg h.2

theorem updateField_append_fresh :
    ∀ (fs1 : FieldList) (gs : FieldList) (ws1 ws2 : List GoVal) (seg : String)
      (nv : GoVal),
      nameFresh seg fs1 = true → ws1.length = fs1.lenF →
      updateField (fs1.appendF gs) (ws1 ++ ws2) seg nv
        = ws1 ++ updateField gs ws2 seg nv
  | .nil, gs, ws1, ws2, seg, nv, _, hlen => by
      have : ws1 = [] := List.length_eq_zero.mp (by simpa [FieldList.lenF] using hlen)
      subst this
      rfl
  | .cons m e t rest, gs, ws1, ws2, seg, nv, h, hlen => by
      simp only [nameFresh, Bool.and_eq_true] at h
      have hm : ¬(m = seg) := by
        have := h.1
        simpa using this
      cases ws1 with
      | nil => simp [FieldList.lenF] at hlen; omega
      | cons w ws1' =>
          have hlen' : ws1'.length = rest.lenF := by
            simp only [List.length_cons, FieldList.lenF] at hlen
            omega
          simp only [FieldList.appendF, List.cons_append, updateField, if_neg hm,
            List.append_eq,
            updateField_append_fresh rest gs ws1' ws2 seg nv h.2 hlen']

theorem setNestedField_flat (fs : FieldList) (ws : List GoVal) (seg : String)
    (ft : GoType) (v : GoVal)
    (hns : hasSpaceChar seg = false)
    (hf : findField fs seg = some (true, ft))
    (hs : scalarKind ft = true)
    (hw : wellTyped ft v = true) :
    setNestedField (.strukt fs) (.strukt ws) seg v
      = .ok (.strukt (updateField fs ws seg v)) := by
  unfold setNestedField
  rw [splitOnSpace_no_space seg hns]
  cases ft with
  | str => simp [setNestedFieldLoop, hf, setField_scalar_roundtrip .str v hs hw]
  | int => simp [setNestedFieldLoop, hf, setField_scalar_roundtrip .int v hs hw]
  | uint => simp [setNestedFieldLoop, hf, setField_scalar_roundtrip .uint v hs hw]
  | bool => simp [setNestedFieldLoop, hf, setField_scalar_roundtrip .bool v hs hw]
  | timeT => simp [scalarKind] at hs
  | ptr pe => simp [scalarKind] at hs
  | slice et => simp [scalarKind] at hs
  | strukt fs2 => simp [scalarKind] at hs

theorem headersFields_flat :
    ∀ (fs : FieldList), flatFieldsOk fs = true → headersFields fs "" = fs.names
  | .nil, _ => rfl
  | .cons n e ft rest, h => by
      simp only [flatFieldsOk, Bool.and_eq_true] at h
      obtain ⟨⟨⟨he, hsk⟩, _⟩, hrest⟩ := h
      subst he
      cases ft with
      | str => simp [headersFields, FieldList.names, headersFields_flat rest hrest]
      | int => simp [headersFields, FieldList.names, headersFields_flat rest hrest]
      | uint => simp [headersFields, FieldList.names, headersFields_flat rest hrest]
      | bool => simp [headersFields, FieldList.names, headersFields_flat rest hrest]
      | timeT => simp [scalarKind] at hsk
      | ptr pe => simp [scalarKind] at hsk
      | slice et => simp [scalarKind] at hsk
      | strukt gs => simp [scalarKind] at hsk

theorem valuesFields_flat :
    ∀ (fs : FieldList) (vs : List GoVal), flatFieldsOk fs = true →
      wellTypedFields fs vs = true →
      getNestedValuesFields fs vs = .ok vs
  | .nil, [], _, _ => rfl
  | .nil, v :: vs, _, hw => by simp [wellTypedFields] at hw
  | .cons n e ft rest, [], _, hw => by simp [wellTypedFields] at hw
  | .cons n e ft rest, v :: vs, hf, hw => by
      simp only [flatFieldsOk, Bool.and_eq_true] at hf
      obtain ⟨⟨⟨he, hsk⟩, _⟩, hrest⟩ := hf
      subst he
      simp only [wellTypedFields, Bool.and_eq_true] at hw
      have ih := valuesFields_flat rest vs hrest hw.2
      cases ft with
      | str => cases v <;>
          simp [getNestedValuesFields, Bind.bind, Except.bind, pure, Except.pure,
            Functor.map, Except.map, ih]
      | int => cases v <;>
          simp [getNestedValuesFields, Bind.bind, Except.bind, pure, Except.pure,
            Functor.map, Except.map, ih]
      | uint => cases v <;>
          simp [getNestedValuesFields, Bind.bind, Except.bind, pure, Except.pure,
            Functor.map, Except.map, ih]
      | bool => cases v <;>
          simp [getNestedValuesFields, Bind.bind, Except.bind, pure, Except.pure,
            Functor.map, Except.map, ih]
      | timeT => simp [scalarKind] at hsk
      | ptr pe => simp [scalarKind] at hsk
      | slice et => simp [scalarKind] at hsk
      | strukt gs => simp [scalarKind] at hsk

theorem processFlatFields :
    ∀ (fs2 : FieldList) (vs2 : List GoVal) (fs1 : FieldList) (ws1 vs1 : List GoVal)
      (r : Nat),
      flatFieldsOk (fs1.appendF fs2) = true →
      distinctNamesF (fs1.appendF fs2) = true →
      ws1.length = fs1.lenF →
      vs1.length = fs1.lenF →
      wellTypedFields fs2 vs2 = true →
      processHeaders (.strukt (fs1.appendF fs2)) r (vs1 ++ vs2) fs2.names vs1.length
          (.strukt (ws1 ++ zeroFields fs2))
        = (.strukt (ws1 ++ vs2), [])
  | .nil, vs2, fs1, ws1, vs1, r, _, _, _, _, hw => by
      cases vs2 with
      | nil => rfl
      | cons v vs2' => simp [wellTypedFields] at hw
  | .cons nm e ft rest, vs2, fs1, ws1, vs1, r, hf, hd, hws, hvs, hw => by
      cases vs2 with
      | nil => simp [wellTypedFields] at hw
      | cons v vs2' =>
          simp only [wellTypedFields, Bool.and_eq_true] at hw
          have hfa := hf
          rw [flatFieldsOk_append_iff] at hfa
          simp only [Bool.and_eq_true, flatFieldsOk] at hfa
          obtain ⟨hflat1, ⟨⟨⟨he, hsk⟩, hns⟩, hflatrest⟩⟩ := hfa
          subst he
          have hfresh : nameFresh nm fs1 = true :=
            distinct_append_head_fresh fs1 nm true ft rest hd
          have hfind : findField (fs1.appendF (.cons nm true ft rest)) nm
              = some (true, ft) := by
            rw [findField_append_fresh fs1 _ nm hfresh]
            simp [findField]
          have hcell : (vs1 ++ v :: vs2')[vs1.length]? = some v := by
            rw [List.getElem?_append_right (le_refl _)]
            simp
          have hupd : updateField (fs1.appendF (.cons nm true ft rest))
              (ws1 ++ zeroVal ft :: zeroFields rest) nm v
              = ws1 ++ v :: zeroFields rest := by
            rw [updateField_append_fresh fs1 _ ws1 (zeroVal ft :: zeroFields rest)
              nm v hfresh hws]
            simp [updateField]
          have hset := setNestedField_flat (fs1.appendF (.cons nm true ft rest))
            (ws1 ++ zeroVal ft :: zeroFields rest) nm ft v
            (by simpa using hns) hfind hsk hw.1
          rw [hupd] at hset
          have hih := processFlatFields rest vs2'
            (fs1.appendF (.cons nm true ft .nil)) (ws1 ++ [v]) (vs1 ++ [v]) r
            (by rw [appendF_assoc]; simpa [FieldList.appendF] using hf)
            (distinct_append_tail fs1 nm true ft rest hd)
            (by rw [lenF_append]; simp [FieldList.lenF, hws])
            (by rw [lenF_append]; simp [FieldList.lenF, hvs])
            hw.2
          rw [appendF_assoc] at hih
          simp only [FieldList.appendF] at hih
          simp only [List.append_assoc, List.singleton_append, List.length_append,
            List.length_singleton] at hih
          simp only [FieldList.names, processHeaders, hcell, zeroFields, hset]
          rw [show vs1.length + 1 = vs1.length + [v].length by simp] at hih
          simpa using hih

theorem keptRow_flat (fs : FieldList) (vs : List GoVal)
    (hf : flatFieldsOk fs = true) (hw : wellTypedFields fs vs = true) :
    keptRow (.strukt fs) (.strukt vs) = some vs := by
  unfold keptRow
  have hvals : getStructValues (.strukt fs) (.strukt vs) = .ok vs := by
    unfold getStructValues
    simp only [getNestedValues]
    exact valuesFields_flat fs vs hf hw
  rw [hvals]
  have hlen : vs.length = (getStructHeaders (.strukt fs)).length := by
    have h1 : getStructHeaders (.strukt fs) = fs.names := by
      unfold getStructHeaders
      simp only [getNestedHeaders]
      exact headersFields_flat fs hf
    rw [h1, names_length]
    exact wellTypedFields_length fs vs hw
  simp [hlen]

theorem toStructRow_flat (fs : FieldList) (vs : List GoVal) (r : Nat)
    (hf : flatFieldsOk fs = true) (hd : distinctNamesF fs = true)
    (hw : wellTypedFields fs vs = true) :
    toStructRow (.strukt fs) fs.names vs r = (.strukt vs, []) := by
  unfold toStructRow
  have h := processFlatFields fs vs .nil [] [] r
    (by simpa [FieldList.appendF] using hf)
    (by simpa [FieldList.appendF] using hd)
    rfl rfl hw
  simpa [FieldList.appendF, zeroVal] using h

theorem toStructRows_flat (fs : FieldList)
    (hf : flatFieldsOk fs = true) (hd : distinctNamesF fs = true) :
    ∀ (data : List GoVal) (k : Nat),
      (∀ v ∈ data, wellTyped (.strukt fs) v = true) →
      toStructRows (.strukt fs) fs.names
          (data.filterMap (keptRow (.strukt fs))) k
        = ⟨data, []⟩
  | [], k, _ => rfl
  | v :: rest, k, hwt => by
      have hv := hwt v (List.mem_cons_self v rest)
      cases v with
      | strukt vs =>
          have hw : wellTypedFields fs vs = true := by simpa [wellTyped] using hv
          have hkept := keptRow_flat fs vs hf hw
          have hih := toStructRows_flat fs hf hd rest (k + 1)
            (fun w hw' => hwt w (List.mem_cons_of_mem _ hw'))
          simp only [List.filterMap_cons, hkept, toStructRows,
            toStructRow_flat fs vs k hf hd hw, hih]
          simp
      | str s => simp [wellTyped] at hv
      | int m => simp [wellTyped] at hv
      | uint m => simp [wellTyped] at hv
      | bool b => simp [wellTyped] at hv
      | time s => simp [wellTyped] at hv
      | nilp => simp [wellTyped] at hv
      | ptr w => simp [wellTyped] at hv
      | slice ws => simp [wellTyped] at hv

/-- C9: round-trip for flat records: exporting a non-empty collection of
simple records (distinct exported scalar fields only) with `FromStruct` and
re-importing the resulting container with `ToStruct` yields an empty error
sequence and a successful-records sequence equal, record by record and
field by field, to the original collection. -/
theorem flat_record_round_trip (t : GoType) (data : List GoVal)
    (hflat : flatRecordT t = true) (hne : data ≠ [])
    (hwt : ∀ v ∈ data, wellTyped t v = true) :
    ∃ ed, fromStruct t data = .ok ed ∧ toStruct t ed = ⟨data, []⟩ := by
  cases t with
  | strukt fs =>
      simp only [flatRecordT, Bool.and_eq_true] at hflat
      obtain ⟨hf, hd⟩ := hflat
      have hok : ∀ v ∈ data, ∃ row, getStructValues (.strukt fs) v = .ok row := by
        intro v hv
        have hv' := hwt v hv
        cases v with
        | strukt vs =>
            exact ⟨vs, by
              unfold getStructValues
              simp only [getNestedValues]
              exact valuesFields_flat fs vs hf (by simpa [wellTyped] using hv')⟩
        | str s => simp [wellTyped] at hv'
        | int m => simp [wellTyped] at hv'
        | uint m => simp [wellTyped] at hv'
        | bool b => simp [wellTyped] at hv'
        | time s => simp [wellTyped] at hv'
        | nilp => simp [wellTyped] at hv'
        | ptr w => simp [wellTyped] at hv'
        | slice ws => simp [wellTyped] at hv'
      refine ⟨⟨getStructHeaders (.strukt fs),
        data.filterMap (keptRow (.strukt fs))⟩, ?_, ?_⟩
      · unfold fromStruct
        rw [if_neg (by simpa using hne)]
        have h := fromStructRows_spec (.strukt fs) data
          (newExcelData (getStructHeaders (.strukt fs))) rfl hok
        simpa [newExcelData] using h
      · have hnames : getStructHeaders (.strukt fs) = fs.names := by
          unfold getStructHeaders
          simp only [getNestedHeaders]
          exact headersFields_flat fs hf
        unfold toStruct
        simp only [hnames]
        exact toStructRows_flat fs hf hd data 0 hwt
  | str => simp [flatRecordT] at hflat
  | int => simp [flatRecordT] at hflat
  | uint => simp [flatRecordT] at hflat
  | bool => simp [flatRecordT] at hflat
  | timeT => simp [flatRecordT] at hflat
  | ptr pe => simp [flatRecordT] at hflat
  | slice et => simp [flatRecordT] at hflat

/-- Witness for C9: the flat `person` collection `[{Alice, 30}, {Bob, 25}]`
exports and re-imports to itself with no errors. -/
theorem flat_record_round_trip_witness :
    ∃ ed, fromStruct flatPersonT
        [.strukt [.str "Alice", .int 30], .strukt [.str "Bob", .int 25]] = .ok ed
      ∧ toStruct flatPersonT ed
          = ⟨[.strukt [.str "Alice", .int 30], .strukt [.str "Bob", .int 25]], []⟩ :=
  flat_record_round_trip flatPersonT
    [.strukt [.str "Alice", .int 30], .strukt [.str "Bob", .int 25]]
    rfl (by simp)
    (by
      intro v hv
      simp only [List.mem_cons, List.not_mem_nil, or_false] at hv
      rcases hv with rfl | rfl
      · rfl
      · rfl)
